import Mathlib

/-!
Shallow embedding of the Silent-Byte room/session coordination layer.

The server side (`src/server/roomManager.js`, socket handlers) is modelled as a
pure state machine: JavaScript `Map`s become association lists preserving
insertion order, `setTimeout` handles become explicit timer records carrying the
data the JS closure captures, and the fire-and-forget MongoDB sync becomes a
`store` component of the state.  The client side (`src/js/chat-client.js`)
contributes two small machines: the reconnect-indicator interval of
`SignalingClient` and the data-channel retry queue of `PeerManager`.
-/

namespace SilentByte

/-- A participant entry as stored in a room's `users` array:
`{ socketId, role }`. -/
structure RMUser where
  socketId : String
  role : String
deriving Repr, DecidableEq

/-- A room as stored in `RoomManager.rooms`: `{ roomCode, users }`. -/
structure Room where
  roomCode : String
  users : List RMUser
deriving Repr, DecidableEq

/-- The data captured by the `setTimeout` closure created in
`handleDisconnect`: the room code, the role of the slot, and the socket id that
disconnected. -/
structure TimerData where
  roomCode : String
  role : String
  socketId : String
deriving Repr, DecidableEq

/-- Association-list lookup modelling `Map.prototype.get`. -/
def mapGet {β : Type} : List (String × β) → String → Option β
  | [], _ => none
  | p :: rest, k => if p.1 = k then some p.2 else mapGet rest k

/-- Association-list update modelling `Map.prototype.set`: overwrite in place
if the key is present (preserving insertion order), else append. -/
def mapSet {β : Type} : List (String × β) → String → β → List (String × β)
  | [], k, v => [(k, v)]
  | p :: rest, k, v => if p.1 = k then (k, v) :: rest else p :: mapSet rest k v

/-- Association-list removal modelling `Map.prototype.delete`. -/
def mapDelete {β : Type} : List (String × β) → String → List (String × β)
  | [], _ => []
  | p :: rest, k => if p.1 = k then mapDelete rest k else p :: mapDelete rest k

/-- The full mutable state of a `RoomManager` instance together with the
durable store it syncs to.  `liveTimers` are the armed, not-yet-cleared
`setTimeout`s (identified by a fresh numeric id); `timerMap` is the
`disconnectTimers` map from `"code:role"` keys to the timer id currently held
under that key. -/
structure RMState where
  rooms : List (String × Room)
  liveTimers : List (Nat × TimerData)
  timerMap : List (String × Nat)
  nextTimerId : Nat
  store : List (String × List RMUser)
deriving Repr, DecidableEq

/-- The empty registry: a fresh `RoomManager` with an empty collection. -/
def initState : RMState :=
  { rooms := [], liveTimers := [], timerMap := [], nextTimerId := 0, store := [] }

/-- The room-code format test `/^[A-Za-z0-9]{6}$/.test(roomCode)`. -/
def validCodeChar (c : Char) : Bool :=
  (('A' ≤ c && c ≤ 'Z') || ('a' ≤ c && c ≤ 'z') || ('0' ≤ c && c ≤ '9'))

/-- Whether a string matches `^[A-Za-z0-9]{6}$`. -/
def validCode (s : String) : Bool :=
  s.length = 6 && s.data.all validCodeChar

/-- Mirror of `_syncToDB(roomCode)`: delete the durable row if the room is
absent from memory, otherwise upsert the room's users. -/
def syncToDB (s : RMState) (roomCode : String) : RMState :=
  match mapGet s.rooms roomCode with
  | none => { s with store := mapDelete s.store roomCode }
  | some room => { s with store := mapSet s.store roomCode room.users }

/-- Mirror of `_cancelDisconnectTimer(roomCode, role)`: look up
`"roomCode:role"` in the timer map; if present, clear that timeout and forget
the map entry. -/
def cancelDisconnectTimer (s : RMState) (roomCode role : String) : RMState :=
  match mapGet s.timerMap (roomCode ++ ":" ++ role) with
  | none => s
  | some tid =>
      { s with
        liveTimers := s.liveTimers.filter (fun p => p.1 ≠ tid),
        timerMap := mapDelete s.timerMap (roomCode ++ ":" ++ role) }

/-- Mirror of `users.find(u => u.role === role); if found mutate its socketId`:
rebind the FIRST user carrying `role`, leaving everything else in place. -/
def rebindFirst (users : List RMUser) (role sid : String) : List RMUser :=
  match users with
  | [] => []
  | u :: rest =>
      if u.role = role then { u with socketId := sid } :: rest
      else u :: rebindFirst rest role sid

/-- The rebind-or-push pattern shared by `createRoom`, `joinRoom` and
`rejoinRoom`: if a user with `role` exists, rebind the first one's socket id;
otherwise push `{ socketId, role }`. -/
def upsertRole (users : List RMUser) (role sid : String) : List RMUser :=
  if users.any (fun u => u.role = role) then rebindFirst users role sid
  else users ++ [⟨sid, role⟩]

/-- Result of `createRoom`. -/
structure CreateResult where
  success : Bool
  msg : Option String
  role : Option String
deriving Repr, DecidableEq

/-- Mirror of `RoomManager.createRoom(roomCode, socketId)`. -/
def createRoom (s : RMState) (roomCode socketId : String) :
    RMState × CreateResult :=
  if ¬ validCode roomCode then
    (s, { success := false, msg := some "Invalid code", role := none })
  else
    let s := cancelDisconnectTimer s roomCode "user1"
    let s :=
      match mapGet s.rooms roomCode with
      | none =>
          { s with rooms :=
              mapSet s.rooms roomCode ⟨roomCode, [⟨socketId, "user1"⟩]⟩ }
      | some room =>
          { s with rooms :=
              (mapSet s.rooms roomCode
                ⟨room.roomCode, upsertRole room.users "user1" socketId⟩) }
    (syncToDB s roomCode, { success := true, msg := none, role := some "user1" })

/-- Result of `joinRoom`.  `user1SocketId = none` stands for both an absent
field (failure) and an explicit `null` (success with no initiator). -/
structure JoinResult where
  success : Bool
  msg : Option String
  role : Option String
  user1SocketId : Option String
deriving Repr, DecidableEq

/-- Mirror of `RoomManager.joinRoom(roomCode, socketId)`. -/
def joinRoom (s : RMState) (roomCode socketId : String) :
    RMState × JoinResult :=
  if ¬ validCode roomCode then
    (s, { success := false, msg := some "Invalid code", role := none,
          user1SocketId := none })
  else
    match mapGet s.rooms roomCode with
    | none =>
        (s, { success := false, msg := some "Room not found or user1 missing",
              role := none, user1SocketId := none })
    | some room =>
        if room.users.isEmpty then
          (s, { success := false, msg := some "Room not found or user1 missing",
                role := none, user1SocketId := none })
        else
          let s := cancelDisconnectTimer s roomCode "user2"
          let users1 := upsertRole room.users "user2" socketId
          let s :=
            { s with rooms := mapSet s.rooms roomCode ⟨room.roomCode, users1⟩ }
          let s := syncToDB s roomCode
          (s, { success := true, msg := none, role := some "user2",
                user1SocketId :=
                  (users1.find? (fun u => u.role = "user1")).map
                    (fun u => u.socketId) })

/-- Result of `rejoinRoom`: always `success`, plus the current occupants of
both slots (possibly absent). -/
structure RejoinResult where
  success : Bool
  user1 : Option RMUser
  user2 : Option RMUser
deriving Repr, DecidableEq

/-- Mirror of `RoomManager.rejoinRoom(roomCode, role, socketId)`.  Note that
unlike `createRoom`/`joinRoom` it performs NO code-format validation and
recreates the room if it was cleaned up. -/
def rejoinRoom (s : RMState) (roomCode role socketId : String) :
    RMState × RejoinResult :=
  let s := cancelDisconnectTimer s roomCode role
  let stepped :=
    match mapGet s.rooms roomCode with
    | none =>
        let r : Room := ⟨roomCode, [⟨socketId, role⟩]⟩
        ({ s with rooms := mapSet s.rooms roomCode r }, r)
    | some room =>
        let r : Room := ⟨room.roomCode, upsertRole room.users role socketId⟩
        ({ s with rooms := mapSet s.rooms roomCode r }, r)
  let s := syncToDB stepped.1 roomCode
  (s, { success := true,
        user1 := stepped.2.users.find? (fun u => u.role = "user1"),
        user2 := stepped.2.users.find? (fun u => u.role = "user2") })

/-- Mirror of `RoomManager.leaveRoom(roomCode, socketId)`. -/
def leaveRoom (s : RMState) (roomCode socketId : String) : RMState :=
  match mapGet s.rooms roomCode with
  | none => s
  | some room =>
      let users1 := room.users.filter (fun u => u.socketId ≠ socketId)
      let s :=
        if users1.isEmpty then { s with rooms := mapDelete s.rooms roomCode }
        else
          { s with rooms := mapSet s.rooms roomCode ⟨room.roomCode, users1⟩ }
      syncToDB s roomCode

/-- Mirror of `RoomManager.handleDisconnect(socketId, onRemoved)` UP TO the
arming of the timer (the deferred callback is `fireTimer` below).  Scans rooms
in insertion order for the first one containing the socket, arms a fresh
`setTimeout` whose closure captures `(roomCode, role, socketId)`, stores its
handle in the timer map under `"roomCode:role"` (overwriting, not clearing, any
previous handle there), and returns `(roomCode, role)`; returns `none` for an
untracked socket. -/
def handleDisconnect (s : RMState) (socketId : String) :
    RMState × Option (String × String) :=
  match s.rooms.find? (fun p => p.2.users.any (fun u => u.socketId = socketId)) with
  | none => (s, none)
  | some p =>
      match p.2.users.find? (fun u => u.socketId = socketId) with
      | none => (s, none)
      | some u =>
          if u.role = "" then (s, none)
          else
            ({ s with
                liveTimers :=
                  s.liveTimers ++ [(s.nextTimerId, ⟨p.2.roomCode, u.role, socketId⟩)],
                timerMap :=
                  mapSet s.timerMap (p.2.roomCode ++ ":" ++ u.role) s.nextTimerId,
                nextTimerId := s.nextTimerId + 1 },
             some (p.2.roomCode, u.role))

/-- First action of the grace-period `setTimeout` callback: the firing timer
`tid` leaves the live set, and `disconnectTimers.delete(key)` forgets the
timer-map entry for the captured key. -/
def clearFiredTimer (s : RMState) (tid : Nat) (t : TimerData) : RMState :=
  { s with
      timerMap := mapDelete s.timerMap (t.roomCode ++ ":" ++ t.role),
      liveTimers := s.liveTimers.filter (fun p => p.1 ≠ tid) }

/-- Removal of the vacated slot: filter out the role, delete the room if that
left it empty. -/
def vacateSlot (s : RMState) (t : TimerData) (room : Room) : RMState :=
  if (room.users.filter (fun v => v.role ≠ t.role)).isEmpty then
    { s with rooms := mapDelete s.rooms t.roomCode }
  else
    { s with rooms :=
        (mapSet s.rooms t.roomCode
          ⟨room.roomCode, room.users.filter (fun v => v.role ≠ t.role)⟩) }

/-- Mirror of the grace-period `setTimeout` callback in `handleDisconnect`:
forget the timer-map entry for the key, then re-validate that the slot for the
captured role still holds the captured socket id; only then vacate the slot,
delete the room if empty, sync, and report `true` (meaning `onRemoved` was
invoked). -/
def fireTimer (s : RMState) (tid : Nat) (t : TimerData) : RMState × Bool :=
  match mapGet (clearFiredTimer s tid t).rooms t.roomCode with
  | none => (clearFiredTimer s tid t, false)
  | some room =>
      match room.users.find? (fun u => u.role = t.role) with
      | none => (clearFiredTimer s tid t, false)
      | some u =>
          if u.socketId = t.socketId then
            (syncToDB (vacateSlot (clearFiredTimer s tid t) t room) t.roomCode,
             true)
          else (clearFiredTimer s tid t, false)

/-- Server→client message kinds emitted by the socket handlers. -/
inductive ServerMsg where
  | startChat (roomCode : String)
  | peerLeft
  | restartWebrtc
deriving Repr, DecidableEq

/-- An outbound emission: either directly to one socket id (`io.to(id)`), or a
broadcast to the room's group (`io.to(roomCode)` / `io.in(roomCode)`). -/
inductive Outbound where
  | direct (target : String) (msg : ServerMsg)
  | room (roomCode : String) (msg : ServerMsg)
deriving Repr, DecidableEq

/-- JavaScript truthiness of the `user1SocketId` value tested by the
`join-room` handler (`null` and the empty string are falsy). -/
def truthyId : Option String → Bool
  | none => false
  | some h => h ≠ ""

/-- Mirror of the `join-room` socket handler: call `joinRoom`, and on success
with a truthy `user1SocketId` send `start-chat` directly to the initiator. -/
def handleJoinRoomEvent (s : RMState) (roomCode socketId : String) :
    RMState × JoinResult × List Outbound :=
  let r := joinRoom s roomCode socketId
  let msgs :=
    if r.2.success then
      match r.2.user1SocketId with
      | some h => if h = "" then [] else [Outbound.direct h (ServerMsg.startChat roomCode)]
      | none => []
    else []
  (r.1, r.2, msgs)

/-- Mirror of the `rejoin-room` socket handler: call `rejoinRoom`; if both
slots are occupied afterwards, send `restart-webrtc` directly to both current
handles; then broadcast `start-chat` to the room. -/
def handleRejoinRoomEvent (s : RMState) (roomCode role socketId : String) :
    RMState × List Outbound :=
  if ¬ (rejoinRoom s roomCode role socketId).2.success then
    ((rejoinRoom s roomCode role socketId).1, [])
  else
    ((rejoinRoom s roomCode role socketId).1,
     (match (rejoinRoom s roomCode role socketId).2.user1,
            (rejoinRoom s roomCode role socketId).2.user2 with
      | some u1, some u2 =>
          [Outbound.direct u1.socketId ServerMsg.restartWebrtc,
           Outbound.direct u2.socketId ServerMsg.restartWebrtc]
      | _, _ => []) ++
     [Outbound.room roomCode (ServerMsg.startChat roomCode)])

/-- Mirror of the grace-period expiry as wired by the `disconnect` handler:
run the timer callback; when it reports eviction, the registered `onRemoved`
broadcasts `peer-left` to the room exactly once. -/
def fireTimerEvent (s : RMState) (tid : Nat) (t : TimerData) :
    RMState × List Outbound :=
  ((fireTimer s tid t).1,
   if (fireTimer s tid t).2 then [Outbound.room t.roomCode ServerMsg.peerLeft]
   else [])

/-- The socket id currently stored for `role` in the room under `roomCode`
(the handle a direct emission would reach). -/
def currentHandle (s : RMState) (roomCode role : String) : Option String :=
  (mapGet s.rooms roomCode).bind
    (fun room => (room.users.find? (fun u => u.role = role)).map
      (fun u => u.socketId))

/-- Registry states reachable from a fresh manager by the public operations,
with grace-period expiries firing only timeouts that are actually armed. -/
inductive Reachable : RMState → Prop where
  | init : Reachable initState
  | create {s} (roomCode socketId : String) :
      Reachable s → Reachable (createRoom s roomCode socketId).1
  | join {s} (roomCode socketId : String) :
      Reachable s → Reachable (joinRoom s roomCode socketId).1
  | rejoin {s} (roomCode role socketId : String) :
      Reachable s → Reachable (rejoinRoom s roomCode role socketId).1
  | leave {s} (roomCode socketId : String) :
      Reachable s → Reachable (leaveRoom s roomCode socketId)
  | disconnect {s} (socketId : String) :
      Reachable s → Reachable (handleDisconnect s socketId).1
  | expire {s} (tid : Nat) (t : TimerData) :
      Reachable s → (tid, t) ∈ s.liveTimers → Reachable (fireTimer s tid t).1

/-- State of `SignalingClient`'s reconnect-indicator interval
(`_reconnectTimer` / `_reconnectAttempts`). -/
structure ReconnectState where
  active : Bool
  attempts : Nat
deriving Repr, DecidableEq

/-- The cap `maxReconnectAttempts`. -/
def maxReconnectAttempts : Nat := 20

/-- The cadence `reconnectIntervalMs` in milliseconds. -/
def reconnectIntervalMs : Nat := 2000

/-- State right after `_startReconnectTimer()`: counter reset, interval armed. -/
def reconnectStart : ReconnectState := { active := true, attempts := 0 }

/-- Events the reconnect indicator can emit. -/
inductive ReconnectEvent where
  | attempt (n : Nat) (cap : Nat)
  | failed
deriving Repr, DecidableEq

/-- One firing of the 2-second interval callback in `_startReconnectTimer`:
increment the counter, emit `reconnect-attempt`, and once the counter reaches
the cap clear the interval (which zeroes the counter) and emit
`reconnect-failed`.  A cleared interval never fires, so an inactive state
emits nothing. -/
def reconnectTick (s : ReconnectState) : ReconnectState × List ReconnectEvent :=
  if s.active then
    let a := s.attempts + 1
    if maxReconnectAttempts ≤ a then
      ({ active := false, attempts := 0 },
       [ReconnectEvent.attempt a maxReconnectAttempts, ReconnectEvent.failed])
    else
      ({ s with attempts := a }, [ReconnectEvent.attempt a maxReconnectAttempts])
  else (s, [])

/-- Run `n` interval firings from a reconnect state, collecting emissions in
order. -/
def reconnectRun (s : ReconnectState) : Nat → ReconnectState × List ReconnectEvent
  | 0 => (s, [])
  | n + 1 =>
      let r := reconnectTick s
      let rest := reconnectRun r.1 n
      (rest.1, r.2 ++ rest.2)

/-- State of `PeerManager`'s data channel and retry queue: whether the channel
is open, the FIFO `retryQueue`, whether `_retryInterval` is armed, and the
payloads handed to `dataChannel.send` so far, in order. -/
structure PMState where
  channelOpen : Bool
  retryQueue : List String
  retryIntervalActive : Bool
  sent : List String
deriving Repr, DecidableEq

/-- Fresh `PeerManager` channel state: channel not open, queue empty. -/
def pmInit : PMState :=
  { channelOpen := false, retryQueue := [], retryIntervalActive := false,
    sent := [] }

/-- Events driving the retry-queue machine: a `send(data)` call, the channel's
`onopen` firing, the channel closing, and a firing of the 2-second
`_retryInterval`. -/
inductive PMEvent where
  | send (data : String)
  | opened
  | closed
  | tick
deriving Repr, DecidableEq

/-- The drain loop
`while (queue.length > 0 && dataChannel.readyState === 'open') send(shift())`:
with the channel open it delivers the whole queue in FIFO order. -/
def pmFlush (s : PMState) : PMState :=
  if s.channelOpen then
    { s with retryQueue := [], sent := s.sent ++ s.retryQueue }
  else s

/-- One step of the retry-queue machine, mirroring `PeerManager.send`, the
`onopen` handler of `_bindDataChannel`, `onclose`, and the interval callback.
Open/tick stop the interval once the queue is drained. -/
def pmStep (s : PMState) : PMEvent → PMState
  | PMEvent.send data =>
      if s.channelOpen then { s with sent := s.sent ++ [data] }
      else
        { s with retryQueue := s.retryQueue ++ [data],
                 retryIntervalActive := true }
  | PMEvent.opened =>
      if (pmFlush { s with channelOpen := true }).retryQueue.isEmpty then
        { pmFlush { s with channelOpen := true } with
            retryIntervalActive := false }
      else pmFlush { s with channelOpen := true }
  | PMEvent.closed => { s with channelOpen := false }
  | PMEvent.tick =>
      if s.retryIntervalActive then
        (if (pmFlush s).retryQueue.isEmpty then
           { pmFlush s with retryIntervalActive := false }
         else pmFlush s)
      else s

/-- The boolean `send` returns: `true` exactly when the channel was open and
the payload went out immediately. -/
def pmSendReturns (s : PMState) : Bool := s.channelOpen

/-- Run a trace of events from a channel state. -/
def pmRun (s : PMState) : List PMEvent → PMState
  | [] => s
  | e :: es => pmRun (pmStep s e) es

/-- The payloads passed to `send` along a trace, in call order. -/
def pmSendsOf : List PMEvent → List String
  | [] => []
  | PMEvent.send d :: es => d :: pmSendsOf es
  | _ :: es => pmSendsOf es

/-! Helper lemmas about the association-list map operations. -/

theorem mapGet_mapSet {β : Type} (m : List (String × β)) (k k' : String) (v : β) :
    mapGet (mapSet m k v) k' = if k' = k then some v else mapGet m k' := by
  induction m with
  | nil =>
      by_cases h : k' = k
      · subst h; simp [mapSet, mapGet]
      · have h2 : ¬ k = k' := fun hh => h hh.symm
        simp [mapSet, mapGet, h, h2]
  | cons p rest ih =>
      by_cases hp : p.1 = k
      · simp only [mapSet, if_pos hp, mapGet]
        by_cases h : k' = k
        · subst h; simp
        · have h2 : ¬ k = k' := fun hh => h hh.symm
          have h3 : ¬ p.1 = k' := fun hh => h2 (hp ▸ hh)
          simp [h, h2, mapGet, h3]
      · simp only [mapSet, if_neg hp, mapGet]
        by_cases hpk : p.1 = k'
        · have h : ¬ k' = k := fun he => hp (by rw [hpk, he])
          simp [hpk, h, mapGet]
        · simp [hpk, ih, mapGet]

theorem mapGet_mapDelete {β : Type} (m : List (String × β)) (k k' : String) :
    mapGet (mapDelete m k) k' = if k' = k then none else mapGet m k' := by
  induction m with
  | nil => simp [mapDelete, mapGet]
  | cons p rest ih =>
      by_cases hp : p.1 = k
      · simp only [mapDelete, if_pos hp, ih]
        by_cases h : k' = k
        · simp [h]
        · have h3 : ¬ p.1 = k' := fun hh => h (by rw [← hh, hp])
          simp [h, mapGet, h3]
      · simp only [mapDelete, if_neg hp, mapGet]
        by_cases hpk : p.1 = k'
        · have h : ¬ k' = k := fun he => hp (by rw [hpk, he])
          simp [hpk, h]
        · simp [hpk, ih]

theorem mem_mapSet {β : Type} {m : List (String × β)} {k : String} {v : β}
    {p : String × β} (h : p ∈ mapSet m k v) : p = (k, v) ∨ p ∈ m := by
  induction m with
  | nil => simp [mapSet] at h; exact Or.inl h
  | cons q rest ih =>
      by_cases hq : q.1 = k
      · simp only [mapSet, if_pos hq, List.mem_cons] at h
        rcases h with h | h
        · exact Or.inl h
        · exact Or.inr (List.mem_cons_of_mem _ h)
      · simp only [mapSet, if_neg hq, List.mem_cons] at h
        rcases h with h | h
        · exact Or.inr (h ▸ List.mem_cons_self _ _)
        · rcases ih h with h2 | h2
          · exact Or.inl h2
          · exact Or.inr (List.mem_cons_of_mem _ h2)

theorem mem_mapDelete {β : Type} {m : List (String × β)} {k : String}
    {p : String × β} (h : p ∈ mapDelete m k) : p ∈ m := by
  induction m with
  | nil => simp [mapDelete] at h
  | cons q rest ih =>
      by_cases hq : q.1 = k
      · simp only [mapDelete, if_pos hq] at h
        exact List.mem_cons_of_mem _ (ih h)
      · simp only [mapDelete, if_neg hq, List.mem_cons] at h
        rcases h with h | h
        · exact h ▸ List.mem_cons_self _ _
        · exact List.mem_cons_of_mem _ (ih h)

theorem mapGet_mem {β : Type} {m : List (String × β)} {k : String} {v : β}
    (h : mapGet m k = some v) : (k, v) ∈ m := by
  induction m with
  | nil => simp [mapGet] at h
  | cons p rest ih =>
      by_cases hp : p.1 = k
      · simp only [mapGet, if_pos hp, Option.some.injEq] at h
        have : p = (k, v) := by cases p; cases h; cases hp; rfl
        exact this ▸ List.mem_cons_self _ _
      · simp only [mapGet, if_neg hp] at h
        exact List.mem_cons_of_mem _ (ih h)

/-! Projection lemmas: which parts of the state each internal helper leaves
untouched. -/

@[simp] theorem syncToDB_rooms (s : RMState) (c : String) :
    (syncToDB s c).rooms = s.rooms := by
  unfold syncToDB; split <;> rfl

@[simp] theorem syncToDB_liveTimers (s : RMState) (c : String) :
    (syncToDB s c).liveTimers = s.liveTimers := by
  unfold syncToDB; split <;> rfl

@[simp] theorem syncToDB_timerMap (s : RMState) (c : String) :
    (syncToDB s c).timerMap = s.timerMap := by
  unfold syncToDB; split <;> rfl

@[simp] theorem syncToDB_nextTimerId (s : RMState) (c : String) :
    (syncToDB s c).nextTimerId = s.nextTimerId := by
  unfold syncToDB; split <;> rfl

@[simp] theorem cancelDisconnectTimer_rooms (s : RMState) (c r : String) :
    (cancelDisconnectTimer s c r).rooms = s.rooms := by
  unfold cancelDisconnectTimer; split <;> rfl

@[simp] theorem cancelDisconnectTimer_store (s : RMState) (c r : String) :
    (cancelDisconnectTimer s c r).store = s.store := by
  unfold cancelDisconnectTimer; split <;> rfl

@[simp] theorem cancelDisconnectTimer_nextTimerId (s : RMState) (c r : String) :
    (cancelDisconnectTimer s c r).nextTimerId = s.nextTimerId := by
  unfold cancelDisconnectTimer; split <;> rfl

@[simp] theorem clearFiredTimer_rooms (s : RMState) (tid : Nat) (t : TimerData) :
    (clearFiredTimer s tid t).rooms = s.rooms := rfl

@[simp] theorem clearFiredTimer_store (s : RMState) (tid : Nat) (t : TimerData) :
    (clearFiredTimer s tid t).store = s.store := rfl

@[simp] theorem vacateSlot_liveTimers (s : RMState) (t : TimerData) (room : Room) :
    (vacateSlot s t room).liveTimers = s.liveTimers := by
  unfold vacateSlot; split <;> rfl

@[simp] theorem vacateSlot_timerMap (s : RMState) (t : TimerData) (room : Room) :
    (vacateSlot s t room).timerMap = s.timerMap := by
  unfold vacateSlot; split <;> rfl

/-! Helper lemmas about the rebind-or-push pattern on user lists. -/

theorem find?_rebindFirst_self {users : List RMUser} {ρ : String} (sid : String)
    (h : users.any (fun u => u.role = ρ) = true) :
    (rebindFirst users ρ sid).find? (fun u => u.role = ρ) =
      some ⟨sid, ρ⟩ := by
  induction users with
  | nil => simp at h
  | cons u rest ih =>
      by_cases hu : u.role = ρ
      · simp only [rebindFirst, if_pos hu]
        rw [List.find?_cons_of_pos]
        · rw [hu]
        · simpa using hu
      · simp only [rebindFirst, if_neg hu]
        rw [List.find?_cons_of_neg]
        · apply ih
          simp only [List.any_cons] at h
          simpa [hu] using h
        · simpa using hu

theorem find?_append_singleton_self (users : List RMUser) (ρ sid : String)
    (h : users.any (fun u => u.role = ρ) = false) :
    (users ++ [(⟨sid, ρ⟩ : RMUser)]).find? (fun u => u.role = ρ) =
      some ⟨sid, ρ⟩ := by
  rw [List.find?_append]
  have h1 : users.find? (fun u => u.role = ρ) = none := by
    rw [List.find?_eq_none]
    intro x hx
    have := (List.any_eq_false.mp h) x hx
    simpa using this
  rw [h1]
  simp

theorem find?_upsertRole_self (users : List RMUser) (ρ sid : String) :
    (upsertRole users ρ sid).find? (fun u => u.role = ρ) = some ⟨sid, ρ⟩ := by
  unfold upsertRole
  by_cases h : users.any (fun u => u.role = ρ) = true
  · rw [if_pos h]; exact find?_rebindFirst_self sid h
  · have h2 : users.any (fun u => u.role = ρ) = false := by
      cases hh : users.any (fun u => u.role = ρ)
      · rfl
      · exact absurd hh h
    rw [if_neg (by simp [h2])]
    exact find?_append_singleton_self users ρ sid h2

theorem find?_rebindFirst_other {users : List RMUser} {ρ ρ' : String}
    (sid : String) (h : ρ' ≠ ρ) :
    (rebindFirst users ρ sid).find? (fun u => u.role = ρ') =
      users.find? (fun u => u.role = ρ') := by
  induction users with
  | nil => rfl
  | cons u rest ih =>
      by_cases hu : u.role = ρ
      · have hu' : ¬ u.role = ρ' := fun hh => h (hh ▸ hu)
        simp only [rebindFirst, if_pos hu]
        rw [List.find?_cons_of_neg, List.find?_cons_of_neg]
        · simpa using hu'
        · simpa using hu'
      · simp only [rebindFirst, if_neg hu]
        by_cases hu' : u.role = ρ'
        · rw [List.find?_cons_of_pos, List.find?_cons_of_pos] <;> simpa using hu'
        · rw [List.find?_cons_of_neg, List.find?_cons_of_neg]
          · exact ih
          · simpa using hu'
          · simpa using hu'

theorem find?_upsertRole_other {users : List RMUser} {ρ ρ' : String}
    (sid : String) (h : ρ' ≠ ρ) :
    (upsertRole users ρ sid).find? (fun u => u.role = ρ') =
      users.find? (fun u => u.role = ρ') := by
  unfold upsertRole
  by_cases ha : users.any (fun u => u.role = ρ) = true
  · rw [if_pos ha]; exact find?_rebindFirst_other sid h
  · rw [if_neg ha, List.find?_append]
    have : ([(⟨sid, ρ⟩ : RMUser)].find? (fun u => u.role = ρ')) = none := by
      rw [List.find?_eq_none]
      intro x hx
      simp at hx
      subst hx
      simpa using fun hh => h hh.symm
    rw [this]
    cases users.find? (fun u => u.role = ρ') <;> rfl

/-- The number of users carrying a given role. -/
def roleCount (users : List RMUser) (r : String) : Nat :=
  users.countP (fun u => u.role = r)

theorem roleCount_rebindFirst (users : List RMUser) (ρ sid r : String) :
    roleCount (rebindFirst users ρ sid) r = roleCount users r := by
  induction users with
  | nil => rfl
  | cons u rest ih =>
      by_cases hu : u.role = ρ
      · simp only [rebindFirst, if_pos hu, roleCount, List.countP_cons]
      · simp only [rebindFirst, if_neg hu, roleCount, List.countP_cons] at ih ⊢
        rw [ih]

theorem roleCount_upsertRole_le {users : List RMUser} {ρ sid : String}
    (h : ∀ r, roleCount users r ≤ 1) (r : String) :
    roleCount (upsertRole users ρ sid) r ≤ 1 := by
  unfold upsertRole
  by_cases ha : users.any (fun u => u.role = ρ) = true
  · rw [if_pos ha, roleCount_rebindFirst]; exact h r
  · rw [if_neg ha]
    have ha2 : users.any (fun u => u.role = ρ) = false := by
      cases hh : users.any (fun u => u.role = ρ)
      · rfl
      · exact absurd hh ha
    unfold roleCount
    rw [List.countP_append]
    by_cases hr : ρ = r
    · have h0 : users.countP (fun u => u.role = r) = 0 := by
        rw [List.countP_eq_zero]
        intro a hA
        have := (List.any_eq_false.mp ha2) a hA
        rw [← hr]
        simpa using this
      simp [h0, hr]
    · have h1 : List.countP (fun u => decide (u.role = r)) [(⟨sid, ρ⟩ : RMUser)] = 0 := by
        simp [hr]
      rw [h1]
      simpa using h r

theorem roleCount_filter_le (users : List RMUser) (q : RMUser → Bool)
    (r : String) : roleCount (users.filter q) r ≤ roleCount users r := by
  unfold roleCount
  exact List.Sublist.countP_le _ (List.filter_sublist users)

/-! Claim C3: invalid codes are rejected before any state is touched. -/

/-- C3: for every input string not matching `^[A-Za-z0-9]{6}$` and every
connection handle, `createRoom` and `joinRoom` both return a failure result
with the invalid-code message and leave the registry state (rooms map,
disconnect timers, durable store) completely unchanged — the format check
happens before any state is touched. -/
theorem claim_invalid_code_no_mutation (s : RMState) (code sid : String)
    (h : validCode code = false) :
    createRoom s code sid =
      (s, { success := false, msg := some "Invalid code", role := none }) ∧
    joinRoom s code sid =
      (s, { success := false, msg := some "Invalid code", role := none,
            user1SocketId := none }) := by
  constructor
  · unfold createRoom
    rw [if_pos (by simp [h])]
  · unfold joinRoom
    rw [if_pos (by simp [h])]

/-- Witness for C3 at the concrete malformed code `"abc"`. -/
theorem claim_invalid_code_no_mutation_witness :
    validCode "abc" = false ∧
    createRoom initState "abc" "s1" =
      (initState, { success := false, msg := some "Invalid code", role := none }) ∧
    joinRoom initState "abc" "s1" =
      (initState, { success := false, msg := some "Invalid code", role := none,
                    user1SocketId := none }) :=
  ⟨by decide,
   (claim_invalid_code_no_mutation initState "abc" "s1" (by decide)).1,
   (claim_invalid_code_no_mutation initState "abc" "s1" (by decide)).2⟩

/-! Claim C9: the reconnect indicator. -/

theorem reconnectRun_inactive (n : Nat) (s : ReconnectState)
    (h : s.active = false) : reconnectRun s n = (s, []) := by
  induction n with
  | zero => rfl
  | succ n ih => simp [reconnectRun, reconnectTick, h, ih]

theorem reconnectRun_active (n : Nat) : ∀ a : Nat, a < maxReconnectAttempts →
    reconnectRun ⟨true, a⟩ n =
      (if maxReconnectAttempts - a ≤ n then (⟨false, 0⟩ : ReconnectState)
       else ⟨true, a + n⟩,
       (List.range' (a + 1) (min n (maxReconnectAttempts - a))).map
         (fun k => ReconnectEvent.attempt k maxReconnectAttempts) ++
       (if maxReconnectAttempts - a ≤ n then [ReconnectEvent.failed] else [])) := by
  induction n with
  | zero =>
      intro a ha
      have h1 : ¬ (maxReconnectAttempts - a ≤ 0) := by omega
      simp [reconnectRun, h1]
  | succ n ih =>
      intro a ha
      by_cases hcap : maxReconnectAttempts ≤ a + 1
      · have ha19 : a + 1 = maxReconnectAttempts := by omega
        have hsub : maxReconnectAttempts - a = 1 := by omega
        have hle : maxReconnectAttempts - a ≤ n + 1 := by omega
        have hmin : min (n + 1) (maxReconnectAttempts - a) = 1 := by omega
        simp only [reconnectRun, reconnectTick, if_pos hcap, if_true]
        rw [reconnectRun_inactive n ⟨false, 0⟩ rfl]
        simp only [hle, if_true]
        simp [hsub, List.range'_one]
      · have ha1 : a + 1 < maxReconnectAttempts := by omega
        have hiff : (maxReconnectAttempts - (a + 1) ≤ n) ↔
            (maxReconnectAttempts - a ≤ n + 1) := by omega
        have hmin : min (n + 1) (maxReconnectAttempts - a) =
            (min n (maxReconnectAttempts - (a + 1))) + 1 := by omega
        simp only [reconnectRun, reconnectTick, if_neg hcap, if_true]
        rw [ih (a + 1) ha1]
        rw [hmin, List.range'_succ]
        by_cases hn : maxReconnectAttempts - (a + 1) ≤ n
        · have hn2 : maxReconnectAttempts - a ≤ n + 1 := hiff.mp hn
          simp [hn, hn2]
        · have hn2 : ¬ (maxReconnectAttempts - a ≤ n + 1) := fun hh => hn (hiff.mpr hh)
          have harith : a + 1 + n = a + (n + 1) := by omega
          simp [hn, hn2, harith]

/-- C9: for a transport that stays disconnected, each firing of the 2-second
reconnect interval emits exactly one `reconnect-attempt` event with an
incrementing count; upon the count reaching the cap of 20 the interval clears
itself and a single terminal `reconnect-failed` is emitted, and no attempt
event beyond the 20th ever occurs. -/
theorem claim_reconnect_indicator_cap (n : Nat) :
    reconnectIntervalMs = 2000 ∧ maxReconnectAttempts = 20 ∧
    (reconnectRun reconnectStart n).2 =
      (List.range' 1 (min n 20)).map (fun k => ReconnectEvent.attempt k 20) ++
      (if 20 ≤ n then [ReconnectEvent.failed] else []) ∧
    (20 ≤ n → (reconnectRun reconnectStart n).1.active = false) ∧
    (∀ k cap, ReconnectEvent.attempt k cap ∈ (reconnectRun reconnectStart n).2 →
       k ≤ 20) := by
  have h := reconnectRun_active n 0 (by decide)
  have hs : reconnectStart = (⟨true, 0⟩ : ReconnectState) := rfl
  have hm : maxReconnectAttempts = 20 := rfl
  have hz : maxReconnectAttempts - 0 = 20 := rfl
  rw [hs, h, hz, hm]
  refine ⟨rfl, rfl, rfl, ?_, ?_⟩
  · intro h20
    simp [h20]
  · intro k cap hk
    simp only [List.mem_append, List.mem_map] at hk
    rcases hk with ⟨j, hj, he⟩ | hk
    · cases he
      have := List.mem_range'_1.mp hj
      omega
    · by_cases h20 : 20 ≤ n
      · simp [h20] at hk
      · simp [h20] at hk

/-- Witness for C9 at the concrete tick count 20: the interval has cleared
itself and exactly one terminal failure event was emitted. -/
theorem claim_reconnect_indicator_cap_witness :
    (reconnectRun reconnectStart 20).1.active = false ∧
    (reconnectRun reconnectStart 20).2.count ReconnectEvent.failed = 1 :=
  ⟨(claim_reconnect_indicator_cap 20).2.2.2.1 (by decide), by decide⟩

/-! Claim C10: joining a room whose initiator slot is vacant. -/

/-- C10: for every room whose initiator (user1) slot is vacant but whose
responder (user2) slot is occupied (more generally, whose user list is
nonempty), a successful `joinRoom` returns success with `user1SocketId` null,
and in that case the relay sends no `start-chat` notification to anyone. -/
theorem claim_join_vacant_initiator_null (s : RMState) (code sid : String)
    (room : Room) (hv : validCode code = true)
    (hr : mapGet s.rooms code = some room)
    (hne : room.users ≠ [])
    (hu1 : room.users.find? (fun u => u.role = "user1") = none) :
    (handleJoinRoomEvent s code sid).2.1.success = true ∧
    (handleJoinRoomEvent s code sid).2.1.user1SocketId = none ∧
    (handleJoinRoomEvent s code sid).2.2 = [] := by
  have hfind : (upsertRole room.users "user2" sid).find?
      (fun u => u.role = "user1") = none := by
    rw [find?_upsertRole_other sid (by decide)]
    exact hu1
  have hemp : room.users.isEmpty = false := by
    cases hu : room.users
    · exact absurd hu hne
    · rfl
  simp only [handleJoinRoomEvent, joinRoom, if_neg (by simp [hv] : ¬ ¬ validCode code = true), hr,
    hemp, Bool.false_eq_true, if_false, hfind, Option.map_none']
  simp

/-- Witness for C10: the registry state reached by a lone responder rejoin of
room `AB12C3`; a subsequent join succeeds, reports no initiator handle, and
triggers no `start-chat`. -/
theorem claim_join_vacant_initiator_null_witness :
    (handleJoinRoomEvent (rejoinRoom initState "AB12C3" "user2" "s2").1
        "AB12C3" "s3").2.1.success = true ∧
    (handleJoinRoomEvent (rejoinRoom initState "AB12C3" "user2" "s2").1
        "AB12C3" "s3").2.1.user1SocketId = none ∧
    (handleJoinRoomEvent (rejoinRoom initState "AB12C3" "user2" "s2").1
        "AB12C3" "s3").2.2 = [] :=
  claim_join_vacant_initiator_null (rejoinRoom initState "AB12C3" "user2" "s2").1
    "AB12C3" "s3" ⟨"AB12C3", [⟨"s2", "user2"⟩]⟩
    (by decide) (by decide) (by decide) (by decide)

/-! Claim C5: when `joinRoom` reports room-not-found.  The claim as stated is
false: the code only checks `room.users.length === 0`, so a room holding only
a responder (reachable via `rejoinRoom`) is joined successfully. -/

/-- C5 counterexample: a reachable registry state whose room `AB12C3` has no
initiator-slot participant (it holds only a responder), yet `joinRoom` with a
valid code and a fresh handle returns success rather than the room-not-found
failure the claim requires. -/
theorem claim_join_without_initiator_cex :
    Reachable (rejoinRoom initState "AB12C3" "user2" "s2").1 ∧
    validCode "AB12C3" = true ∧
    mapGet (rejoinRoom initState "AB12C3" "user2" "s2").1.rooms "AB12C3" =
      some ⟨"AB12C3", [⟨"s2", "user2"⟩]⟩ ∧
    (joinRoom (rejoinRoom initState "AB12C3" "user2" "s2").1 "AB12C3" "s3").2.success
      = true ∧
    (joinRoom (rejoinRoom initState "AB12C3" "user2" "s2").1 "AB12C3" "s3").2.msg
      = none :=
  ⟨Reachable.rejoin "AB12C3" "user2" "s2" Reachable.init,
   by decide, by decide, by decide, by decide⟩

/-- C5 (amended): for every valid 6-character code and every handle,
`joinRoom` fails with the room-not-found error exactly when no room exists for
the code or the room's participant list is empty; a room that exists with any
participant — even one holding only a responder — is joined successfully. -/
theorem claim_join_room_not_found_amended (s : RMState) (code sid : String)
    (hv : validCode code = true) :
    ((joinRoom s code sid).2.success = false ∧
     (joinRoom s code sid).2.msg = some "Room not found or user1 missing") ↔
    (mapGet s.rooms code = none ∨
     ∃ room, mapGet s.rooms code = some room ∧ room.users = []) := by
  have hv2 : ¬ ¬ validCode code = true := by simp [hv]
  cases hr : mapGet s.rooms code with
  | none =>
      simp only [joinRoom, if_neg hv2, hr]
      simp
  | some room =>
      cases hu : room.users with
      | nil =>
          simp only [joinRoom, if_neg hv2, hr, hu]
          simp [hu]
      | cons u rest =>
          simp only [joinRoom, if_neg hv2, hr, hu]
          simp [hu]

/-- Witness for the amended C5: joining an absent room with a valid code
fails with the room-not-found message. -/
theorem claim_join_room_not_found_amended_witness :
    (joinRoom initState "AB12C3" "s3").2.success = false ∧
    (joinRoom initState "AB12C3" "s3").2.msg =
      some "Room not found or user1 missing" :=
  (claim_join_room_not_found_amended initState "AB12C3" "s3" (by decide)).mpr
    (Or.inl (by decide))

/-! Inversion lemmas: how each operation can change the rooms map. -/

@[simp] theorem handleDisconnect_rooms (s : RMState) (sid : String) :
    (handleDisconnect s sid).1.rooms = s.rooms := by
  unfold handleDisconnect
  split
  · rfl
  · split
    · rfl
    · split <;> rfl

theorem createRoom_rooms_inv {s : RMState} {code sid c : String} {room' : Room}
    (h : mapGet (createRoom s code sid).1.rooms c = some room') :
    (c = code ∧ validCode code = true ∧
      (room' = ⟨code, [⟨sid, "user1"⟩]⟩ ∨
       ∃ room, mapGet s.rooms code = some room ∧
         room' = ⟨room.roomCode, upsertRole room.users "user1" sid⟩)) ∨
    mapGet s.rooms c = some room' := by
  unfold createRoom at h
  by_cases hv : validCode code = true
  · rw [if_neg (by simp [hv])] at h
    simp only [syncToDB_rooms, cancelDisconnectTimer_rooms] at h
    cases hget : mapGet s.rooms code with
    | none =>
        rw [hget] at h
        simp only at h
        rw [mapGet_mapSet] at h
        by_cases hc : c = code
        · rw [if_pos hc] at h
          exact Or.inl ⟨hc, hv, Or.inl (Option.some.inj h).symm⟩
        · rw [if_neg hc] at h
          exact Or.inr h
    | some room =>
        rw [hget] at h
        simp only at h
        rw [mapGet_mapSet] at h
        by_cases hc : c = code
        · rw [if_pos hc] at h
          exact Or.inl ⟨hc, hv, Or.inr ⟨room, rfl, (Option.some.inj h).symm⟩⟩
        · rw [if_neg hc] at h
          exact Or.inr h
  · rw [if_pos (by simp [hv])] at h
    exact Or.inr h

theorem joinRoom_rooms_inv {s : RMState} {code sid c : String} {room' : Room}
    (h : mapGet (joinRoom s code sid).1.rooms c = some room') :
    (c = code ∧ validCode code = true ∧
      ∃ room, mapGet s.rooms code = some room ∧
        room' = ⟨room.roomCode, upsertRole room.users "user2" sid⟩) ∨
    mapGet s.rooms c = some room' := by
  unfold joinRoom at h
  by_cases hv : validCode code = true
  · rw [if_neg (by simp [hv])] at h
    cases hget : mapGet s.rooms code with
    | none =>
        rw [hget] at h
        exact Or.inr h
    | some room =>
        rw [hget] at h
        simp only at h
        by_cases he : room.users.isEmpty
        · rw [if_pos he] at h
          exact Or.inr h
        · rw [if_neg he] at h
          simp only [syncToDB_rooms, cancelDisconnectTimer_rooms] at h
          rw [mapGet_mapSet] at h
          by_cases hc : c = code
          · rw [if_pos hc] at h
            exact Or.inl ⟨hc, hv, room, rfl, (Option.some.inj h).symm⟩
          · rw [if_neg hc] at h
            exact Or.inr h
  · rw [if_pos (by simp [hv])] at h
    exact Or.inr h

theorem rejoinRoom_rooms_inv {s : RMState} {code role sid c : String}
    {room' : Room}
    (h : mapGet (rejoinRoom s code role sid).1.rooms c = some room') :
    (c = code ∧
      (room' = ⟨code, [⟨sid, role⟩]⟩ ∨
       ∃ room, mapGet s.rooms code = some room ∧
         room' = ⟨room.roomCode, upsertRole room.users role sid⟩)) ∨
    mapGet s.rooms c = some room' := by
  unfold rejoinRoom at h
  simp only [syncToDB_rooms, cancelDisconnectTimer_rooms] at h
  cases hget : mapGet s.rooms code with
  | none =>
      rw [hget] at h
      simp only at h
      rw [mapGet_mapSet] at h
      by_cases hc : c = code
      · rw [if_pos hc] at h
        exact Or.inl ⟨hc, Or.inl (Option.some.inj h).symm⟩
      · rw [if_neg hc] at h
        exact Or.inr h
  | some room =>
      rw [hget] at h
      simp only at h
      rw [mapGet_mapSet] at h
      by_cases hc : c = code
      · rw [if_pos hc] at h
        exact Or.inl ⟨hc, Or.inr ⟨room, rfl, (Option.some.inj h).symm⟩⟩
      · rw [if_neg hc] at h
        exact Or.inr h

theorem leaveRoom_rooms_inv {s : RMState} {code sid c : String} {room' : Room}
    (h : mapGet (leaveRoom s code sid).rooms c = some room') :
    (c = code ∧
      ∃ room, mapGet s.rooms code = some room ∧
        room' = ⟨room.roomCode, room.users.filter (fun u => u.socketId ≠ sid)⟩) ∨
    mapGet s.rooms c = some room' := by
  unfold leaveRoom at h
  cases hget : mapGet s.rooms code with
  | none =>
      rw [hget] at h
      exact Or.inr h
  | some room =>
      rw [hget] at h
      simp only [syncToDB_rooms] at h
      by_cases he : (room.users.filter (fun u => u.socketId ≠ sid)).isEmpty
      · rw [if_pos he] at h
        simp only [mapGet_mapDelete] at h
        by_cases hc : c = code
        · rw [if_pos hc] at h; cases h
        · rw [if_neg hc] at h
          exact Or.inr h
      · rw [if_neg he] at h
        simp only [mapGet_mapSet] at h
        by_cases hc : c = code
        · rw [if_pos hc] at h
          exact Or.inl ⟨hc, room, rfl, (Option.some.inj h).symm⟩
        · rw [if_neg hc] at h
          exact Or.inr h

theorem fireTimer_rooms_inv {s : RMState} {tid : Nat} {t : TimerData}
    {c : String} {room' : Room}
    (h : mapGet (fireTimer s tid t).1.rooms c = some room') :
    (c = t.roomCode ∧
      ∃ room, mapGet s.rooms t.roomCode = some room ∧
        room' = ⟨room.roomCode, room.users.filter (fun u => u.role ≠ t.role)⟩) ∨
    mapGet s.rooms c = some room' := by
  unfold fireTimer at h
  simp only [clearFiredTimer_rooms] at h
  cases hget : mapGet s.rooms t.roomCode with
  | none =>
      rw [hget] at h
      exact Or.inr h
  | some room =>
      rw [hget] at h
      simp only at h
      cases hfind : room.users.find? (fun u => u.role = t.role) with
      | none =>
          rw [hfind] at h
          exact Or.inr h
      | some u =>
          rw [hfind] at h
          simp only at h
          by_cases hsid : u.socketId = t.socketId
          · rw [if_pos hsid] at h
            simp only [syncToDB_rooms] at h
            unfold vacateSlot at h
            simp only [clearFiredTimer_rooms] at h
            by_cases he : (room.users.filter (fun u => u.role ≠ t.role)).isEmpty
            · rw [if_pos he] at h
              simp only [mapGet_mapDelete] at h
              by_cases hc : c = t.roomCode
              · rw [if_pos hc] at h; cases h
              · rw [if_neg hc] at h
                exact Or.inr h
            · rw [if_neg he] at h
              simp only [mapGet_mapSet] at h
              by_cases hc : c = t.roomCode
              · rw [if_pos hc] at h
                exact Or.inl ⟨hc, room, rfl, (Option.some.inj h).symm⟩
              · rw [if_neg hc] at h
                exact Or.inr h
          · rw [if_neg hsid] at h
            exact Or.inr h
/-! Claim C7: validity of room codes in reachable states.  The claim as
stated is false: `rejoinRoom` performs no code-format validation, so a
`rejoin-room` message carrying an arbitrary string creates a room under that
string. -/

/-- The property claimed by C7: every room present in the rooms map sits under
a code matching `^[A-Za-z0-9]{6}$`. -/
def allCodesValid (s : RMState) : Prop :=
  ∀ code room, mapGet s.rooms code = some room → validCode code = true

/-- C7 counterexample: `rejoinRoom` with the one-character code `"x"` from the
empty registry is a reachable public operation, yet it installs a room under
the invalid code `"x"`, so not every reachable state has only valid codes. -/
theorem claim_room_codes_valid_cex :
    ¬ (∀ s, Reachable s → allCodesValid s) := by
  intro hall
  have hreach : Reachable (rejoinRoom initState "x" "user1" "s1").1 :=
    Reachable.rejoin "x" "user1" "s1" Reachable.init
  have hget : mapGet (rejoinRoom initState "x" "user1" "s1").1.rooms "x" =
      some ⟨"x", [⟨"s1", "user1"⟩]⟩ := by decide
  have hv := hall _ hreach "x" ⟨"x", [⟨"s1", "user1"⟩]⟩ hget
  exact absurd hv (by decide)

/-- Registry states reachable when every `rejoin-room` carries a code that
passes the 6-character format check (the restriction the counterexample
forces). -/
inductive ReachableV : RMState → Prop where
  | init : ReachableV initState
  | create {s} (roomCode socketId : String) :
      ReachableV s → ReachableV (createRoom s roomCode socketId).1
  | join {s} (roomCode socketId : String) :
      ReachableV s → ReachableV (joinRoom s roomCode socketId).1
  | rejoin {s} (roomCode role socketId : String) :
      ReachableV s → validCode roomCode = true →
      ReachableV (rejoinRoom s roomCode role socketId).1
  | leave {s} (roomCode socketId : String) :
      ReachableV s → ReachableV (leaveRoom s roomCode socketId)
  | disconnect {s} (socketId : String) :
      ReachableV s → ReachableV (handleDisconnect s socketId).1
  | expire {s} (tid : Nat) (t : TimerData) :
      ReachableV s → (tid, t) ∈ s.liveTimers →
      ReachableV (fireTimer s tid t).1

/-- C7 (amended): in every registry state reachable by createRoom, joinRoom,
leaveRoom, disconnects, grace-period expiries, and those rejoinRoom calls
whose code matches `^[A-Za-z0-9]{6}$`, every room in the rooms map sits under
a code matching `^[A-Za-z0-9]{6}$`.  (Unrestricted `rejoinRoom` breaks this,
as the counterexample shows: it validates nothing and recreates rooms under
arbitrary codes.) -/
theorem claim_room_codes_valid_amended :
    ∀ s, ReachableV s → allCodesValid s := by
  intro s h
  induction h with
  | init =>
      intro code room hr
      simp [initState, mapGet] at hr
  | create roomCode socketId _ ih =>
      intro code room hr
      rcases createRoom_rooms_inv hr with ⟨hc, hv, _⟩ | hold
      · exact hc ▸ hv
      · exact ih code room hold
  | join roomCode socketId _ ih =>
      intro code room hr
      rcases joinRoom_rooms_inv hr with ⟨hc, hv, _⟩ | hold
      · exact hc ▸ hv
      · exact ih code room hold
  | rejoin roomCode role socketId _ hv ih =>
      intro code room hr
      rcases rejoinRoom_rooms_inv hr with ⟨hc, _⟩ | hold
      · exact hc ▸ hv
      · exact ih code room hold
  | leave roomCode socketId _ ih =>
      intro code room hr
      rcases leaveRoom_rooms_inv hr with ⟨hc, room0, hget, _⟩ | hold
      · subst hc; exact ih code room0 hget
      · exact ih code room hold
  | disconnect socketId _ ih =>
      intro code room hr
      rw [handleDisconnect_rooms] at hr
      exact ih code room hr
  | expire tid t _ _ ih =>
      intro code room hr
      rcases fireTimer_rooms_inv hr with ⟨hc, room0, hget, _⟩ | hold
      · subst hc; exact ih t.roomCode room0 hget
      · exact ih code room hold

/-- Witness for the amended C7: after a valid-code rejoin from the empty
registry, the lone room's code passes the format check. -/
theorem claim_room_codes_valid_amended_witness :
    ReachableV (rejoinRoom initState "AB12C3" "user1" "s1").1 ∧
    validCode "AB12C3" = true :=
  ⟨ReachableV.rejoin "AB12C3" "user1" "s1" ReachableV.init (by decide),
   claim_room_codes_valid_amended (rejoinRoom initState "AB12C3" "user1" "s1").1
     (ReachableV.rejoin "AB12C3" "user1" "s1" ReachableV.init (by decide))
     "AB12C3" ⟨"AB12C3", [⟨"s1", "user1"⟩]⟩ (by decide)⟩

/-! Claim C6: at most one participant per role in every reachable state. -/

/-- The per-room role-uniqueness invariant: no role is carried by more than
one participant. -/
def roomUsersOK (users : List RMUser) : Prop :=
  ∀ r, roleCount users r ≤ 1

/-- The state-level invariant: every room in the map satisfies
`roomUsersOK`. -/
def roomsOK (s : RMState) : Prop :=
  ∀ code room, mapGet s.rooms code = some room → roomUsersOK room.users

theorem roomUsersOK_singleton (sid ρ : String) :
    roomUsersOK [⟨sid, ρ⟩] := by
  intro r
  calc roleCount [(⟨sid, ρ⟩ : RMUser)] r ≤ [(⟨sid, ρ⟩ : RMUser)].length :=
        List.countP_le_length _
    _ = 1 := rfl

theorem roomUsersOK_upsertRole {users : List RMUser} (h : roomUsersOK users)
    (ρ sid : String) : roomUsersOK (upsertRole users ρ sid) :=
  fun r => roleCount_upsertRole_le h r

theorem roomUsersOK_filter {users : List RMUser} (h : roomUsersOK users)
    (q : RMUser → Bool) : roomUsersOK (users.filter q) :=
  fun r => le_trans (roleCount_filter_le users q r) (h r)

/-- Every reachable registry state satisfies the role-uniqueness invariant. -/
theorem reachable_roomsOK : ∀ s, Reachable s → roomsOK s := by
  intro s h
  induction h with
  | init =>
      intro code room hr
      simp [initState, mapGet] at hr
  | create roomCode socketId _ ih =>
      intro code room hr
      rcases createRoom_rooms_inv hr with ⟨_, _, hnew | ⟨room0, hget, hup⟩⟩ | hold
      · subst hnew; exact roomUsersOK_singleton socketId "user1"
      · subst hup; exact roomUsersOK_upsertRole (ih roomCode room0 hget) _ _
      · exact ih code room hold
  | join roomCode socketId _ ih =>
      intro code room hr
      rcases joinRoom_rooms_inv hr with ⟨_, _, room0, hget, hup⟩ | hold
      · subst hup; exact roomUsersOK_upsertRole (ih roomCode room0 hget) _ _
      · exact ih code room hold
  | rejoin roomCode role socketId _ ih =>
      intro code room hr
      rcases rejoinRoom_rooms_inv hr with ⟨_, hnew | ⟨room0, hget, hup⟩⟩ | hold
      · subst hnew; exact roomUsersOK_singleton socketId role
      · subst hup; exact roomUsersOK_upsertRole (ih roomCode room0 hget) _ _
      · exact ih code room hold
  | leave roomCode socketId _ ih =>
      intro code room hr
      rcases leaveRoom_rooms_inv hr with ⟨_, room0, hget, hup⟩ | hold
      · subst hup; exact roomUsersOK_filter (ih roomCode room0 hget) _
      · exact ih code room hold
  | disconnect socketId _ ih =>
      intro code room hr
      rw [handleDisconnect_rooms] at hr
      exact ih code room hr
  | expire tid t _ _ ih =>
      intro code room hr
      rcases fireTimer_rooms_inv hr with ⟨_, room0, hget, hup⟩ | hold
      · subst hup; exact roomUsersOK_filter (ih t.roomCode room0 hget) _
      · exact ih code room hold

/-- C6: in every registry state reachable by any sequence of createRoom,
joinRoom, rejoinRoom, leaveRoom, disconnects and grace-period expiries, every
room's participant list contains at most one participant per role (each
operation rebinds an existing slot's handle rather than adding a second
participant with the same role). -/
theorem claim_at_most_one_per_role (s : RMState) (h : Reachable s)
    (code : String) (room : Room) (hr : mapGet s.rooms code = some room)
    (role : String) : roleCount room.users role ≤ 1 :=
  reachable_roomsOK s h code room hr role

/-- Witness for C6: the state after creating room `AB12C3`, whose single room
holds exactly one `user1` participant. -/
theorem claim_at_most_one_per_role_witness :
    roleCount [(⟨"s1", "user1"⟩ : RMUser)] "user1" ≤ 1 :=
  claim_at_most_one_per_role (createRoom initState "AB12C3" "s1").1
    (Reachable.create "AB12C3" "s1" Reachable.init)
    "AB12C3" ⟨"AB12C3", [⟨"s1", "user1"⟩]⟩ (by decide) "user1"

/-! Claim C4: `restart-webrtc` targeting after a rejoin. -/

/-- After `rejoinRoom`, the returned occupants are exactly the ones read from
the room as stored in the updated registry, the call always succeeds, and the
slot for the rejoining role holds the fresh socket id. -/
theorem rejoinRoom_spec (s : RMState) (code role sid : String) :
    ∃ rm : Room,
      mapGet (rejoinRoom s code role sid).1.rooms code = some rm ∧
      (rejoinRoom s code role sid).2.user1 =
        rm.users.find? (fun u => u.role = "user1") ∧
      (rejoinRoom s code role sid).2.user2 =
        rm.users.find? (fun u => u.role = "user2") ∧
      (rejoinRoom s code role sid).2.success = true ∧
      rm.users.find? (fun u => u.role = role) = some ⟨sid, role⟩ := by
  unfold rejoinRoom
  simp only [cancelDisconnectTimer_rooms]
  cases hget : mapGet s.rooms code with
  | none =>
      refine ⟨⟨code, [⟨sid, role⟩]⟩, ?_, ?_, ?_, ?_, ?_⟩
      · simp [syncToDB_rooms, mapGet_mapSet]
      · rfl
      · rfl
      · trivial
      · simp
  | some room =>
      refine ⟨⟨room.roomCode, upsertRole room.users role sid⟩, ?_, ?_, ?_, ?_, ?_⟩
      · simp [syncToDB_rooms, mapGet_mapSet]
      · rfl
      · rfl
      · trivial
      · exact find?_upsertRole_self room.users role sid

theorem handleRejoinRoomEvent_fst (s : RMState) (code role sid : String) :
    (handleRejoinRoomEvent s code role sid).1 =
      (rejoinRoom s code role sid).1 := by
  unfold handleRejoinRoomEvent
  split <;> rfl

/-- C4: after any rejoin-room request, if both slots of the room are occupied
in the registry, the relay sends `restart-webrtc` directly to exactly the two
handles currently stored in the registry after the rejoin (never to a stale
handle a rebind has replaced), followed by the `start-chat` broadcast; if
either slot is vacant after the rejoin, no `restart-webrtc` is sent at all. -/
theorem claim_rejoin_restart_targets_current_handles
    (s : RMState) (code role sid : String) :
    (∀ h1 h2,
      currentHandle (handleRejoinRoomEvent s code role sid).1 code "user1" = some h1 →
      currentHandle (handleRejoinRoomEvent s code role sid).1 code "user2" = some h2 →
      (handleRejoinRoomEvent s code role sid).2 =
        [Outbound.direct h1 ServerMsg.restartWebrtc,
         Outbound.direct h2 ServerMsg.restartWebrtc,
         Outbound.room code (ServerMsg.startChat code)]) ∧
    ((currentHandle (handleRejoinRoomEvent s code role sid).1 code "user1" = none ∨
      currentHandle (handleRejoinRoomEvent s code role sid).1 code "user2" = none) →
      ∀ x, Outbound.direct x ServerMsg.restartWebrtc ∉
        (handleRejoinRoomEvent s code role sid).2) := by
  obtain ⟨rm, hrm, hu1, hu2, hsucc, -⟩ := rejoinRoom_spec s code role sid
  have hch1 : currentHandle (handleRejoinRoomEvent s code role sid).1 code "user1" =
      ((rejoinRoom s code role sid).2.user1).map (fun u => u.socketId) := by
    rw [handleRejoinRoomEvent_fst]
    unfold currentHandle
    rw [hrm, hu1]
    rfl
  have hch2 : currentHandle (handleRejoinRoomEvent s code role sid).1 code "user2" =
      ((rejoinRoom s code role sid).2.user2).map (fun u => u.socketId) := by
    rw [handleRejoinRoomEvent_fst]
    unfold currentHandle
    rw [hrm, hu2]
    rfl
  have hmsgs : (handleRejoinRoomEvent s code role sid).2 =
      (match (rejoinRoom s code role sid).2.user1,
             (rejoinRoom s code role sid).2.user2 with
       | some u1, some u2 =>
           [Outbound.direct u1.socketId ServerMsg.restartWebrtc,
            Outbound.direct u2.socketId ServerMsg.restartWebrtc]
       | _, _ => []) ++ [Outbound.room code (ServerMsg.startChat code)] := by
    unfold handleRejoinRoomEvent
    rw [if_neg (by simp [hsucc])]
  cases hq1 : (rejoinRoom s code role sid).2.user1 with
  | none =>
      constructor
      · intro h1 h2 hc1 _
        rw [hch1, hq1] at hc1
        cases hc1
      · intro _ x hx
        rw [hmsgs, hq1] at hx
        simp at hx
  | some u1 =>
      cases hq2 : (rejoinRoom s code role sid).2.user2 with
      | none =>
          constructor
          · intro h1 h2 _ hc2
            rw [hch2, hq2] at hc2
            cases hc2
          · intro _ x hx
            rw [hmsgs, hq1, hq2] at hx
            simp at hx
      | some u2 =>
          constructor
          · intro h1 h2 hc1 hc2
            rw [hch1, hq1] at hc1
            rw [hch2, hq2] at hc2
            rw [hmsgs, hq1, hq2]
            simp only [Option.map_some'] at hc1 hc2
            rw [← Option.some.inj hc1, ← Option.some.inj hc2]
            rfl
          · intro hnone x _
            rcases hnone with hn | hn
            · rw [hch1, hq1] at hn; cases hn
            · rw [hch2, hq2] at hn; cases hn

/-- Witness for C4: in room `AB12C3` with initiator `a` and responder `b`,
the initiator rejoins with the fresh handle `c`; both `restart-webrtc`
messages go to the current handles `c` and `b`, then `start-chat` is
broadcast. -/
theorem claim_rejoin_restart_targets_current_handles_witness :
    (handleRejoinRoomEvent
        (joinRoom (createRoom initState "AB12C3" "a").1 "AB12C3" "b").1
        "AB12C3" "user1" "c").2 =
      [Outbound.direct "c" ServerMsg.restartWebrtc,
       Outbound.direct "b" ServerMsg.restartWebrtc,
       Outbound.room "AB12C3" (ServerMsg.startChat "AB12C3")] :=
  (claim_rejoin_restart_targets_current_handles
      (joinRoom (createRoom initState "AB12C3" "a").1 "AB12C3" "b").1
      "AB12C3" "user1" "c").1 "c" "b" (by decide) (by decide)

/-! Claim C1: a rejoin within the grace period cancels the timer, and even a
stale timer firing afterwards re-validates the handle and evicts nothing. -/

/-- Inversion of a tracked disconnect: when `handleDisconnect` reports
`(code, role)`, the state gained exactly one fresh armed timer capturing
`(code, role, socketId)`, the timer map points the key at it, and the rooms
were not touched. -/
theorem handleDisconnect_some_inv {s : RMState} {sid : String} {s1 : RMState}
    {code role : String}
    (h : handleDisconnect s sid = (s1, some (code, role))) :
    s1.liveTimers = s.liveTimers ++ [(s.nextTimerId, ⟨code, role, sid⟩)] ∧
    s1.timerMap = mapSet s.timerMap (code ++ ":" ++ role) s.nextTimerId ∧
    s1.rooms = s.rooms ∧ s1.nextTimerId = s.nextTimerId + 1 := by
  unfold handleDisconnect at h
  cases hfr : s.rooms.find?
      (fun p => p.2.users.any (fun u => u.socketId = sid)) with
  | none =>
      rw [hfr] at h
      simp at h
  | some p =>
      rw [hfr] at h
      simp only at h
      cases hfu : p.2.users.find? (fun u => u.socketId = sid) with
      | none =>
          rw [hfu] at h
          simp at h
      | some u =>
          rw [hfu] at h
          simp only at h
          by_cases hrole : u.role = ""
          · rw [if_pos hrole] at h
            simp at h
          · rw [if_neg hrole] at h
            have h1 := congrArg Prod.fst h
            have h2 := congrArg Prod.snd h
            simp only at h1 h2
            have hcr : p.2.roomCode = code ∧ u.role = role := by
              have := Option.some.inj h2
              exact ⟨congrArg Prod.fst this, congrArg Prod.snd this⟩
            rw [← h1, ← hcr.1, ← hcr.2]
            exact ⟨rfl, rfl, rfl, rfl⟩

theorem rejoinRoom_liveTimers (s : RMState) (code role sid : String) :
    (rejoinRoom s code role sid).1.liveTimers =
      (cancelDisconnectTimer s code role).liveTimers := by
  unfold rejoinRoom
  simp only [cancelDisconnectTimer_rooms]
  cases hget : mapGet s.rooms code <;> simp [hget, syncToDB_liveTimers]

theorem fireTimer_no_evict {s2 : RMState} (tid2 : Nat) {t : TimerData}
    {rm : Room} {u : RMUser}
    (hrm : mapGet s2.rooms t.roomCode = some rm)
    (hfind : rm.users.find? (fun v => v.role = t.role) = some u)
    (hne : u.socketId ≠ t.socketId) :
    (fireTimer s2 tid2 t).1.rooms = s2.rooms ∧
    (fireTimer s2 tid2 t).2 = false := by
  unfold fireTimer
  rw [clearFiredTimer_rooms]
  split
  · next heq => rw [heq] at hrm; cases hrm
  · next room heq =>
      rw [heq] at hrm
      cases Option.some.inj hrm
      split
      · next heq2 => rw [heq2] at hfind; cases hfind
      · next u2 heq2 =>
          rw [heq2] at hfind
          cases Option.some.inj hfind
          rw [if_neg hne]
          exact ⟨rfl, rfl⟩

/-- C1: if a participant's handle disconnects (arming the grace timer) and a
rejoin for the same (room, role) arrives with a new handle, then (a) the armed
timer was recorded, (b) the rejoin cancels it — it is no longer live — and
(c) even if a (stale) timer callback carrying that disconnect's data runs
after the rejoin, the re-validation sees a different handle in the slot,
vacates nothing, leaves the whole rooms map (including the other slot)
untouched, and never reports an eviction. -/
theorem claim_rejoin_within_grace_prevents_eviction
    (s : RMState) (sid : String) (s1 : RMState) (code role : String)
    (hd : handleDisconnect s sid = (s1, some (code, role)))
    (sid2 : String) (hneq : sid2 ≠ sid) :
    ((s.nextTimerId, (⟨code, role, sid⟩ : TimerData)) ∈ s1.liveTimers) ∧
    ((s.nextTimerId, (⟨code, role, sid⟩ : TimerData)) ∉
       (rejoinRoom s1 code role sid2).1.liveTimers) ∧
    (∀ tid2 : Nat,
       (fireTimer (rejoinRoom s1 code role sid2).1 tid2
           ⟨code, role, sid⟩).1.rooms =
         (rejoinRoom s1 code role sid2).1.rooms ∧
       (fireTimer (rejoinRoom s1 code role sid2).1 tid2
           ⟨code, role, sid⟩).2 = false) := by
  obtain ⟨hlive, hmap, hrooms, hnext⟩ := handleDisconnect_some_inv hd
  refine ⟨?_, ?_, ?_⟩
  · rw [hlive]
    exact List.mem_append_right _ (List.mem_singleton.mpr rfl)
  · rw [rejoinRoom_liveTimers]
    unfold cancelDisconnectTimer
    rw [hmap, mapGet_mapSet, if_pos rfl]
    simp only [List.mem_filter]
    intro hmem
    simp at hmem
  · intro tid2
    obtain ⟨rm, hrm, -, -, -, hslot⟩ := rejoinRoom_spec s1 code role sid2
    exact fireTimer_no_evict tid2 hrm hslot (by simpa using hneq)

/-- Witness for C1: initiator `a` of room `AB12C3` (with responder `b`)
disconnects and rejoins as `c` within the grace window; the armed timer is no
longer live after the rejoin, and firing its stale data evicts nothing. -/
theorem claim_rejoin_within_grace_prevents_eviction_witness :
    ((joinRoom (createRoom initState "AB12C3" "a").1 "AB12C3" "b").1.nextTimerId,
      (⟨"AB12C3", "user1", "a"⟩ : TimerData)) ∉
      (rejoinRoom
        (handleDisconnect
          (joinRoom (createRoom initState "AB12C3" "a").1 "AB12C3" "b").1 "a").1
        "AB12C3" "user1" "c").1.liveTimers ∧
    (fireTimer
        (rejoinRoom
          (handleDisconnect
            (joinRoom (createRoom initState "AB12C3" "a").1 "AB12C3" "b").1 "a").1
          "AB12C3" "user1" "c").1
        0 ⟨"AB12C3", "user1", "a"⟩).2 = false :=
  ⟨(claim_rejoin_within_grace_prevents_eviction
      (joinRoom (createRoom initState "AB12C3" "a").1 "AB12C3" "b").1 "a"
      (handleDisconnect
        (joinRoom (createRoom initState "AB12C3" "a").1 "AB12C3" "b").1 "a").1
      "AB12C3" "user1" (by decide) "c" (by decide)).2.1,
   ((claim_rejoin_within_grace_prevents_eviction
      (joinRoom (createRoom initState "AB12C3" "a").1 "AB12C3" "b").1 "a"
      (handleDisconnect
        (joinRoom (createRoom initState "AB12C3" "a").1 "AB12C3" "b").1 "a").1
      "AB12C3" "user1" (by decide) "c" (by decide)).2.2 0).2⟩

/-! Claim C2: machinery — well-formedness of the rooms map (each room is
stored under its own code, and codes are not duplicated), which JavaScript's
`Map` guarantees by construction. -/

/-- The grace period `DISCONNECT_GRACE_MS` in milliseconds. -/
def DISCONNECT_GRACE_MS : Nat := 15000

/-- Well-formedness of a rooms association list: every room sits under its
own `roomCode`, and keys are unique (as in a JavaScript `Map`). -/
def roomsWF (rooms : List (String × Room)) : Prop :=
  (∀ p ∈ rooms, p.2.roomCode = p.1) ∧ (rooms.map Prod.fst).Nodup

theorem mapDelete_sublist {β : Type} (m : List (String × β)) (k : String) :
    List.Sublist (mapDelete m k) m := by
  induction m with
  | nil => simp [mapDelete]
  | cons p rest ih =>
      by_cases hp : p.1 = k
      · rw [mapDelete, if_pos hp]
        exact ih.cons p
      · rw [mapDelete, if_neg hp]
        exact ih.cons₂ p

theorem mem_keys_mapSet {β : Type} {m : List (String × β)} {k a : String}
    {v : β} (h : a ∈ (mapSet m k v).map Prod.fst) :
    a ∈ m.map Prod.fst ∨ a = k := by
  rcases List.mem_map.mp h with ⟨q, hq, hqa⟩
  rcases mem_mapSet hq with he | hm
  · right; rw [← hqa, he]
  · left; exact List.mem_map.mpr ⟨q, hm, hqa⟩

theorem nodup_keys_mapSet {β : Type} {m : List (String × β)} (k : String)
    (v : β) (h : (m.map Prod.fst).Nodup) :
    ((mapSet m k v).map Prod.fst).Nodup := by
  induction m with
  | nil => simp [mapSet]
  | cons p rest ih =>
      rw [List.map_cons, List.nodup_cons] at h
      by_cases hp : p.1 = k
      · rw [mapSet, if_pos hp, List.map_cons, List.nodup_cons]
        exact ⟨fun hmem => h.1 (hp ▸ hmem), h.2⟩
      · rw [mapSet, if_neg hp, List.map_cons, List.nodup_cons]
        refine ⟨fun hmem => ?_, ih h.2⟩
        rcases mem_keys_mapSet hmem with hm | he
        · exact h.1 hm
        · exact hp he

theorem mapGet_of_mem_nodup {β : Type} {m : List (String × β)}
    {p : String × β} (hmem : p ∈ m) (hnd : (m.map Prod.fst).Nodup) :
    mapGet m p.1 = some p.2 := by
  induction m with
  | nil => cases hmem
  | cons q rest ih =>
      rw [List.map_cons, List.nodup_cons] at hnd
      rcases List.mem_cons.mp hmem with he | hm
      · subst he
        rw [mapGet, if_pos rfl]
      · by_cases hq : q.1 = p.1
        · exact absurd (hq ▸ List.mem_map.mpr ⟨p, hm, rfl⟩) hnd.1
        · rw [mapGet, if_neg hq]
          exact ih hm hnd.2

theorem roomsWF_mapSet {rooms : List (String × Room)} (h : roomsWF rooms)
    {code : String} {rm : Room} (hrm : rm.roomCode = code) :
    roomsWF (mapSet rooms code rm) := by
  constructor
  · intro p hp
    rcases mem_mapSet hp with he | hm
    · rw [he]; exact hrm
    · exact h.1 p hm
  · exact nodup_keys_mapSet code rm h.2

theorem roomsWF_mapDelete {rooms : List (String × Room)} (h : roomsWF rooms)
    (k : String) : roomsWF (mapDelete rooms k) := by
  constructor
  · intro p hp
    exact h.1 p (mem_mapDelete hp)
  · exact h.2.sublist ((mapDelete_sublist rooms k).map Prod.fst)

/-! Equations giving each operation's rooms map in closed form. -/

theorem createRoom_rooms (s : RMState) (code sid : String) :
    (createRoom s code sid).1.rooms =
      (if validCode code = true then
        match mapGet s.rooms code with
        | none => mapSet s.rooms code ⟨code, [⟨sid, "user1"⟩]⟩
        | some room =>
            mapSet s.rooms code ⟨room.roomCode, upsertRole room.users "user1" sid⟩
       else s.rooms) := by
  unfold createRoom
  by_cases hv : validCode code = true
  · rw [if_neg (by simp [hv]), if_pos hv]
    simp only [syncToDB_rooms, cancelDisconnectTimer_rooms]
    cases hget : mapGet s.rooms code <;> simp [hget]
  · rw [if_pos (by simp [hv]), if_neg hv]

theorem joinRoom_rooms (s : RMState) (code sid : String) :
    (joinRoom s code sid).1.rooms =
      (if validCode code = true then
        match mapGet s.rooms code with
        | none => s.rooms
        | some room =>
            if room.users.isEmpty then s.rooms
            else mapSet s.rooms code
              ⟨room.roomCode, upsertRole room.users "user2" sid⟩
       else s.rooms) := by
  unfold joinRoom
  by_cases hv : validCode code = true
  · rw [if_neg (by simp [hv]), if_pos hv]
    cases hget : mapGet s.rooms code with
    | none => simp [hget]
    | some room =>
        by_cases he : room.users.isEmpty
        · simp [hget, he]
        · simp [hget, he]
  · rw [if_pos (by simp [hv]), if_neg hv]

theorem rejoinRoom_rooms (s : RMState) (code role sid : String) :
    (rejoinRoom s code role sid).1.rooms =
      (match mapGet s.rooms code with
       | none => mapSet s.rooms code ⟨code, [⟨sid, role⟩]⟩
       | some room =>
           mapSet s.rooms code ⟨room.roomCode, upsertRole room.users role sid⟩) := by
  unfold rejoinRoom
  simp only [cancelDisconnectTimer_rooms]
  cases hget : mapGet s.rooms code <;> simp [hget]

theorem leaveRoom_rooms (s : RMState) (code sid : String) :
    (leaveRoom s code sid).rooms =
      (match mapGet s.rooms code with
       | none => s.rooms
       | some room =>
           if (room.users.filter (fun u => u.socketId ≠ sid)).isEmpty then
             mapDelete s.rooms code
           else mapSet s.rooms code
             ⟨room.roomCode, room.users.filter (fun u => u.socketId ≠ sid)⟩) := by
  unfold leaveRoom
  cases hget : mapGet s.rooms code with
  | none => simp only [hget]
  | some room =>
      simp only [hget, syncToDB_rooms]
      by_cases he : (room.users.filter (fun u => u.socketId ≠ sid)).isEmpty
      · rw [if_pos he, if_pos he]
      · rw [if_neg he, if_neg he]

theorem fireTimer_rooms (s : RMState) (tid : Nat) (t : TimerData) :
    (fireTimer s tid t).1.rooms =
      (match mapGet s.rooms t.roomCode with
       | none => s.rooms
       | some room =>
           match room.users.find? (fun u => u.role = t.role) with
           | none => s.rooms
           | some u =>
               if u.socketId = t.socketId then
                 (if (room.users.filter (fun v => v.role ≠ t.role)).isEmpty then
                    mapDelete s.rooms t.roomCode
                  else mapSet s.rooms t.roomCode
                    ⟨room.roomCode, room.users.filter (fun v => v.role ≠ t.role)⟩)
               else s.rooms) := by
  unfold fireTimer
  simp only [clearFiredTimer_rooms]
  cases hget : mapGet s.rooms t.roomCode with
  | none => simp [hget]
  | some room =>
      cases hfind : room.users.find? (fun u => u.role = t.role) with
      | none => simp [hget, hfind]
      | some u =>
          by_cases hsid : u.socketId = t.socketId
          · simp only [hget, hfind, if_pos hsid, syncToDB_rooms]
            unfold vacateSlot
            simp only [clearFiredTimer_rooms]
            by_cases he : (room.users.filter (fun v => v.role ≠ t.role)).isEmpty
            · rw [if_pos he, if_pos he]
            · rw [if_neg he, if_neg he]
          · simp only [hget, hfind, if_neg hsid, clearFiredTimer_rooms]

/-- Every reachable registry state has a well-formed rooms map. -/
theorem reachable_roomsWF : ∀ s, Reachable s → roomsWF s.rooms := by
  intro s h
  induction h with
  | init => exact ⟨fun p hp => absurd hp (List.not_mem_nil p), List.nodup_nil⟩
  | create roomCode socketId _ ih =>
      rw [createRoom_rooms]
      by_cases hv : validCode roomCode = true
      · rw [if_pos hv]
        split
        · exact roomsWF_mapSet ih rfl
        · next room hget =>
            exact roomsWF_mapSet ih (ih.1 (roomCode, room) (mapGet_mem hget))
      · rw [if_neg hv]; exact ih
  | join roomCode socketId _ ih =>
      rw [joinRoom_rooms]
      by_cases hv : validCode roomCode = true
      · rw [if_pos hv]
        split
        · exact ih
        · next room hget =>
            split
            · exact ih
            · exact roomsWF_mapSet ih (ih.1 (roomCode, room) (mapGet_mem hget))
      · rw [if_neg hv]; exact ih
  | rejoin roomCode role socketId _ ih =>
      rw [rejoinRoom_rooms]
      split
      · exact roomsWF_mapSet ih rfl
      · next room hget =>
          exact roomsWF_mapSet ih (ih.1 (roomCode, room) (mapGet_mem hget))
  | leave roomCode socketId _ ih =>
      rw [leaveRoom_rooms]
      split
      · exact ih
      · next room hget =>
          split
          · exact roomsWF_mapDelete ih roomCode
          · exact roomsWF_mapSet ih (ih.1 (roomCode, room) (mapGet_mem hget))
  | disconnect socketId _ ih =>
      rw [handleDisconnect_rooms]
      exact ih
  | expire tid t _ _ ih =>
      rw [fireTimer_rooms]
      split
      · exact ih
      · next room hget =>
          split
          · exact ih
          · next u hfind =>
              split
              · split
                · exact roomsWF_mapDelete ih t.roomCode
                · exact roomsWF_mapSet ih (ih.1 (t.roomCode, room) (mapGet_mem hget))
              · exact ih

/-- Inversion of a tracked disconnect, data part: the reported `(code, role)`
come from the first room containing the socket and the first user inside it
holding the socket. -/
theorem handleDisconnect_found {s : RMState} {sid : String} {s1 : RMState}
    {code role : String}
    (h : handleDisconnect s sid = (s1, some (code, role))) :
    ∃ p, s.rooms.find?
        (fun q => q.2.users.any (fun u => u.socketId = sid)) = some p ∧
      code = p.2.roomCode ∧
      ∃ u, p.2.users.find? (fun v => v.socketId = sid) = some u ∧
        role = u.role := by
  unfold handleDisconnect at h
  cases hfr : s.rooms.find?
      (fun p => p.2.users.any (fun u => u.socketId = sid)) with
  | none => rw [hfr] at h; simp at h
  | some p =>
      rw [hfr] at h
      simp only at h
      cases hfu : p.2.users.find? (fun u => u.socketId = sid) with
      | none => rw [hfu] at h; simp at h
      | some u =>
          rw [hfu] at h
          simp only at h
          by_cases hrole : u.role = ""
          · rw [if_pos hrole] at h; simp at h
          · rw [if_neg hrole] at h
            have h2 := Option.some.inj (congrArg Prod.snd h)
            exact ⟨p, rfl, (congrArg Prod.fst h2).symm, u, hfu,
              (congrArg Prod.snd h2).symm⟩

/-- In a list with at most one element satisfying `p`, `find?` returns any
member that satisfies `p`. -/
theorem find?_eq_of_mem_of_countP_le_one {α : Type} {p : α → Bool} {l : List α}
    {u : α} (hmem : u ∈ l) (hu : p u = true) (hcount : l.countP p ≤ 1) :
    l.find? p = some u := by
  induction l with
  | nil => cases hmem
  | cons a rest ih =>
      by_cases ha : p a = true
      · rw [List.find?_cons_of_pos _ ha]
        rcases List.mem_cons.mp hmem with he | hr
        · rw [he]
        · exfalso
          have h1 : (a :: rest).countP p = rest.countP p + 1 :=
            List.countP_cons_of_pos _ _ ha
          have hz : rest.countP p = 0 := by omega
          exact (List.countP_eq_zero.mp hz) u hr hu
      · rw [List.find?_cons_of_neg _ ha]
        rcases List.mem_cons.mp hmem with he | hr
        · subst he; exact absurd hu ha
        · refine ih hr ?_
          have h1 : (a :: rest).countP p = rest.countP p :=
            List.countP_cons_of_neg _ _ ha
          omega

/-- Removing the unique participant with a role shortens the list by exactly
one. -/
theorem length_filter_role_ne {users : List RMUser} {role : String} {u : RMUser}
    (humem : u ∈ users) (hurole : u.role = role)
    (hcount : users.countP (fun v => v.role = role) ≤ 1) :
    users.length = (users.filter (fun v => v.role ≠ role)).length + 1 := by
  induction users with
  | nil => cases humem
  | cons a rest ih =>
      by_cases ha : a.role = role
      · have h1 : (a :: rest).countP (fun v => v.role = role) =
            rest.countP (fun v => v.role = role) + 1 :=
          List.countP_cons_of_pos _ _ (by simpa using ha)
        have hz : rest.countP (fun v => v.role = role) = 0 := by omega
        have hall : rest.filter (fun v => v.role ≠ role) = rest := by
          rw [List.filter_eq_self]
          intro b hb
          have hbz := List.countP_eq_zero.mp hz b hb
          simpa using hbz
        rw [List.filter_cons]
        have hcond : ¬ (decide (a.role ≠ role) = true) := by simp [ha]
        simp only [if_neg hcond, hall, List.length_cons]
      · rcases List.mem_cons.mp humem with he | hr
        · subst he; exact absurd hurole ha
        · have h1 : (a :: rest).countP (fun v => v.role = role) =
              rest.countP (fun v => v.role = role) :=
            List.countP_cons_of_neg _ _ (by simpa using ha)
          have hc2 : rest.countP (fun v => v.role = role) ≤ 1 := by omega
          rw [List.filter_cons]
          have hcond : decide (a.role ≠ role) = true := by simp [ha]
          simp only [if_pos hcond, List.length_cons]
          rw [ih hr hc2]

/-- The eviction branch of the timer callback: when the room exists and the
slot holding the captured role still carries the captured socket id, firing
removes the role's participants (deleting the room if emptied) and reports
the eviction. -/
theorem fireTimer_evict_branch {s2 : RMState} (tid : Nat) {t : TimerData}
    {rm : Room} {u : RMUser}
    (hrm : mapGet s2.rooms t.roomCode = some rm)
    (hfind : rm.users.find? (fun v => v.role = t.role) = some u)
    (hsid : u.socketId = t.socketId) :
    (fireTimer s2 tid t).1.rooms =
      (if (rm.users.filter (fun v => v.role ≠ t.role)).isEmpty then
         mapDelete s2.rooms t.roomCode
       else mapSet s2.rooms t.roomCode
         ⟨rm.roomCode, rm.users.filter (fun v => v.role ≠ t.role)⟩) ∧
    (fireTimer s2 tid t).2 = true := by
  constructor
  · rw [fireTimer_rooms]
    simp only [hrm, hfind, if_pos hsid]
  · unfold fireTimer
    rw [clearFiredTimer_rooms]
    split
    · next heq => rw [heq] at hrm; cases hrm
    · next room heq =>
        rw [heq] at hrm
        cases Option.some.inj hrm
        split
        · next heq2 => rw [heq2] at hfind; cases hfind
        · next u2 heq2 =>
            rw [heq2] at hfind
            cases Option.some.inj hfind
            rw [if_pos hsid]

/-- C2: for a handle tracked in a reachable state, disconnecting arms the
grace timer (15000 ms), and its expiry with the slot still bound to that
handle (no rejoin having replaced it) removes exactly the one participant
holding that (room, role) — the rest of the room's list survives the filter —
deletes the room exactly when it is then empty, leaves every other room
untouched, and emits exactly one `peer-left` broadcast to the room. -/
theorem claim_expiry_evicts_exactly_slot
    (s : RMState) (sid : String) (s1 : RMState) (code role : String)
    (hreach : Reachable s)
    (hd : handleDisconnect s sid = (s1, some (code, role))) :
    DISCONNECT_GRACE_MS = 15000 ∧
    ((s.nextTimerId, (⟨code, role, sid⟩ : TimerData)) ∈ s1.liveTimers) ∧
    (fireTimerEvent s1 s.nextTimerId ⟨code, role, sid⟩).2 =
      [Outbound.room code ServerMsg.peerLeft] ∧
    (∃ room u,
      mapGet s.rooms code = some room ∧
      u ∈ room.users ∧ u.socketId = sid ∧ u.role = role ∧
      room.users.length =
        (room.users.filter (fun v => v.role ≠ role)).length + 1 ∧
      mapGet (fireTimerEvent s1 s.nextTimerId ⟨code, role, sid⟩).1.rooms code =
        (if (room.users.filter (fun v => v.role ≠ role)).isEmpty then none
         else some ⟨room.roomCode, room.users.filter (fun v => v.role ≠ role)⟩)) ∧
    (∀ c, c ≠ code →
      mapGet (fireTimerEvent s1 s.nextTimerId ⟨code, role, sid⟩).1.rooms c =
        mapGet s.rooms c) := by
  obtain ⟨hlive, hmap, hrooms, hnext⟩ := handleDisconnect_some_inv hd
  obtain ⟨p, hfr, hcode, u, hfu, hrole⟩ := handleDisconnect_found hd
  have hwf := reachable_roomsWF s hreach
  have hpmem : p ∈ s.rooms := List.mem_of_find?_eq_some hfr
  have hkey : p.2.roomCode = p.1 := hwf.1 p hpmem
  have hget : mapGet s.rooms code = some p.2 := by
    rw [hcode, hkey]
    exact mapGet_of_mem_nodup hpmem hwf.2
  have humem : u ∈ p.2.users := List.mem_of_find?_eq_some hfu
  have husid : u.socketId = sid := by
    have := List.find?_some hfu
    simpa using this
  have hcount : p.2.users.countP (fun v => v.role = role) ≤ 1 :=
    reachable_roomsOK s hreach code p.2 hget role
  have hfindrole : p.2.users.find? (fun v => v.role = role) = some u :=
    find?_eq_of_mem_of_countP_le_one humem (by simp [hrole]) hcount
  have hget1 : mapGet s1.rooms code = some p.2 := by rw [hrooms]; exact hget
  obtain ⟨hfrooms, hftrue⟩ :=
    fireTimer_evict_branch (t := ⟨code, role, sid⟩) s.nextTimerId hget1
      hfindrole husid
  have hev1 : (fireTimerEvent s1 s.nextTimerId ⟨code, role, sid⟩).1 =
      (fireTimer s1 s.nextTimerId ⟨code, role, sid⟩).1 := rfl
  have hev2 : (fireTimerEvent s1 s.nextTimerId ⟨code, role, sid⟩).2 =
      [Outbound.room code ServerMsg.peerLeft] := by
    unfold fireTimerEvent
    rw [hftrue]
    simp
  refine ⟨rfl, ?_, hev2, ?_, ?_⟩
  · rw [hlive]
    exact List.mem_append_right _ (List.mem_singleton.mpr rfl)
  · refine ⟨p.2, u, hget, humem, husid, hrole.symm, ?_, ?_⟩
    · exact length_filter_role_ne humem hrole.symm hcount
    · rw [hev1, hfrooms]
      by_cases hemp : (p.2.users.filter (fun v => v.role ≠ role)).isEmpty
      · rw [if_pos hemp, if_pos hemp, hrooms, mapGet_mapDelete, if_pos rfl]
      · rw [if_neg hemp, if_neg hemp, hrooms, mapGet_mapSet, if_pos rfl]
  · intro c hc
    rw [hev1, hfrooms]
    by_cases hemp : (p.2.users.filter (fun v => v.role ≠ role)).isEmpty
    · rw [if_pos hemp, hrooms, mapGet_mapDelete, if_neg hc]
    · rw [if_neg hemp, hrooms, mapGet_mapSet, if_neg hc]

/-- Witness for C2: in room `AB12C3` with initiator `a` and responder `b`,
handle `a` disconnects; firing the armed grace timer emits exactly one
`peer-left` broadcast. -/
theorem claim_expiry_evicts_exactly_slot_witness :
    ((joinRoom (createRoom initState "AB12C3" "a").1 "AB12C3" "b").1.nextTimerId,
      (⟨"AB12C3", "user1", "a"⟩ : TimerData)) ∈
      (handleDisconnect
        (joinRoom (createRoom initState "AB12C3" "a").1 "AB12C3" "b").1
        "a").1.liveTimers ∧
    (fireTimerEvent
        (handleDisconnect
          (joinRoom (createRoom initState "AB12C3" "a").1 "AB12C3" "b").1
          "a").1
        (joinRoom (createRoom initState "AB12C3" "a").1 "AB12C3" "b").1.nextTimerId
        ⟨"AB12C3", "user1", "a"⟩).2 =
      [Outbound.room "AB12C3" ServerMsg.peerLeft] :=
  ⟨(claim_expiry_evicts_exactly_slot
      (joinRoom (createRoom initState "AB12C3" "a").1 "AB12C3" "b").1 "a"
      (handleDisconnect
        (joinRoom (createRoom initState "AB12C3" "a").1 "AB12C3" "b").1
        "a").1
      "AB12C3" "user1"
      (Reachable.join "AB12C3" "b" (Reachable.create "AB12C3" "a" Reachable.init))
      (by decide)).2.1,
   (claim_expiry_evicts_exactly_slot
      (joinRoom (createRoom initState "AB12C3" "a").1 "AB12C3" "b").1 "a"
      (handleDisconnect
        (joinRoom (createRoom initState "AB12C3" "a").1 "AB12C3" "b").1
        "a").1
      "AB12C3" "user1"
      (Reachable.join "AB12C3" "b" (Reachable.create "AB12C3" "a" Reachable.init))
      (by decide)).2.2.1⟩

/-! Claim C8: the retry queue of `PeerManager.send`. -/

@[simp] theorem pmFlush_channelOpen (s : PMState) :
    (pmFlush s).channelOpen = s.channelOpen := by
  unfold pmFlush; split <;> rfl

@[simp] theorem pmFlush_sent (s : PMState) :
    (pmFlush s).sent =
      (if s.channelOpen then s.sent ++ s.retryQueue else s.sent) := by
  unfold pmFlush; split <;> rfl

@[simp] theorem pmFlush_retryQueue (s : PMState) :
    (pmFlush s).retryQueue = (if s.channelOpen then [] else s.retryQueue) := by
  unfold pmFlush; split <;> rfl

/-- The invariant coupling the channel and the queue: while the channel is
open the retry queue is empty (every element was flushed the moment the
channel opened, and open-channel sends bypass the queue). -/
def pmInv (s : PMState) : Prop := s.channelOpen = true → s.retryQueue = []

theorem pmStep_inv {s : PMState} (h : pmInv s) (e : PMEvent) :
    pmInv (pmStep s e) := by
  cases e with
  | send d =>
      intro ho
      by_cases hc : s.channelOpen
      · simp only [pmStep, if_pos hc]
        exact h hc
      · simp only [pmStep, if_neg hc] at ho ⊢
        exact absurd ho hc
  | opened =>
      intro _
      simp [pmStep, pmFlush]
  | closed =>
      intro ho
      simp only [pmStep] at ho
      cases ho
  | tick =>
      by_cases hA : s.retryIntervalActive
      · by_cases hc : s.channelOpen
        · intro _
          simp [pmStep, hA, pmFlush, hc]
        · by_cases hq : s.retryQueue.isEmpty
          · intro ho
            simp [pmStep, hA, pmFlush, hc, hq] at ho
          · intro ho
            simp [pmStep, hA, pmFlush, hc, hq] at ho
      · intro ho
        simp only [pmStep, if_neg hA] at ho ⊢
        exact h ho

theorem pmStep_sends {s : PMState} (h : pmInv s) (e : PMEvent) :
    (pmStep s e).sent ++ (pmStep s e).retryQueue =
      s.sent ++ s.retryQueue ++ pmSendsOf [e] := by
  cases e with
  | send d =>
      by_cases hc : s.channelOpen
      · simp only [pmStep, if_pos hc, pmSendsOf]
        rw [h hc]
        simp
      · simp only [pmStep, if_neg hc, pmSendsOf]
        simp
  | opened =>
      simp [pmStep, pmFlush, pmSendsOf]
  | closed =>
      simp [pmStep, pmSendsOf]
  | tick =>
      by_cases hA : s.retryIntervalActive
      · by_cases hc : s.channelOpen
        · simp [pmStep, hA, pmFlush, hc, pmSendsOf, h hc]
        · by_cases hq : s.retryQueue.isEmpty
          · simp [pmStep, hA, pmFlush, hc, hq, pmSendsOf]
          · simp [pmStep, hA, pmFlush, hc, hq, pmSendsOf]
      · simp [pmStep, hA, pmSendsOf]

theorem pmRun_spec : ∀ (tr : List PMEvent) (s : PMState), pmInv s →
    pmInv (pmRun s tr) ∧
    (pmRun s tr).sent ++ (pmRun s tr).retryQueue =
      s.sent ++ s.retryQueue ++ pmSendsOf tr := by
  intro tr
  induction tr with
  | nil =>
      intro s h
      exact ⟨h, by simp [pmRun, pmSendsOf]⟩
  | cons e es ih =>
      intro s h
      obtain ⟨h1, h2⟩ := ih (pmStep s e) (pmStep_inv h e)
      refine ⟨h1, ?_⟩
      have hs := pmStep_sends h e
      rw [pmRun, h2, hs]
      cases e <;> simp [pmSendsOf]

theorem pmStep_opened_flushes (s : PMState) :
    (pmStep s PMEvent.opened).sent = s.sent ++ s.retryQueue ∧
    (pmStep s PMEvent.opened).retryQueue = [] := by
  constructor <;> simp [pmStep, pmFlush]

/-- C8: along any trace of `send` calls, channel opens/closes and retry-timer
firings, the delivered payloads followed by the still-queued ones are exactly
the `send` arguments in call order (so nothing is lost, duplicated or
reordered, however the channel flaps); while the channel is open the queue is
empty; a `send` returns `true` and delivers immediately exactly when the
channel is open, and enqueues in call order returning `false` otherwise; and
the moment the channel opens the entire queue is delivered in FIFO order. -/
theorem claim_retry_queue_fifo (tr : List PMEvent) :
    ((pmRun pmInit tr).sent ++ (pmRun pmInit tr).retryQueue = pmSendsOf tr) ∧
    ((pmRun pmInit tr).channelOpen = true → (pmRun pmInit tr).retryQueue = []) ∧
    (∀ d, pmSendReturns (pmRun pmInit tr) = (pmRun pmInit tr).channelOpen ∧
       (pmStep (pmRun pmInit tr) (PMEvent.send d)).sent =
         (if (pmRun pmInit tr).channelOpen then (pmRun pmInit tr).sent ++ [d]
          else (pmRun pmInit tr).sent) ∧
       (pmStep (pmRun pmInit tr) (PMEvent.send d)).retryQueue =
         (if (pmRun pmInit tr).channelOpen then (pmRun pmInit tr).retryQueue
          else (pmRun pmInit tr).retryQueue ++ [d])) ∧
    ((pmStep (pmRun pmInit tr) PMEvent.opened).sent =
       (pmRun pmInit tr).sent ++ (pmRun pmInit tr).retryQueue ∧
     (pmStep (pmRun pmInit tr) PMEvent.opened).retryQueue = []) := by
  have hinv0 : pmInv pmInit := fun _ => rfl
  obtain ⟨hinv, hsends⟩ := pmRun_spec tr pmInit hinv0
  refine ⟨by simpa [pmInit] using hsends, hinv, ?_, pmStep_opened_flushes _⟩
  intro d
  refine ⟨rfl, ?_, ?_⟩
  · by_cases hc : (pmRun pmInit tr).channelOpen
    · simp only [pmStep, if_pos hc]
    · simp only [pmStep, if_neg hc]
  · by_cases hc : (pmRun pmInit tr).channelOpen
    · simp only [pmStep, if_pos hc]
    · simp only [pmStep, if_neg hc]

/-- Witness for C8 on a concrete flapping trace: two sends while closed, an
open (which flushes both in order), a send while open, a close, a queued send,
and a reopen — every payload is delivered exactly once, in order. -/
theorem claim_retry_queue_fifo_witness :
    (pmRun pmInit
        [PMEvent.send "a", PMEvent.send "b", PMEvent.opened, PMEvent.send "c",
         PMEvent.closed, PMEvent.send "d", PMEvent.opened]).sent ++
      (pmRun pmInit
        [PMEvent.send "a", PMEvent.send "b", PMEvent.opened, PMEvent.send "c",
         PMEvent.closed, PMEvent.send "d", PMEvent.opened]).retryQueue =
      pmSendsOf
        [PMEvent.send "a", PMEvent.send "b", PMEvent.opened, PMEvent.send "c",
         PMEvent.closed, PMEvent.send "d", PMEvent.opened] ∧
    (pmRun pmInit
        [PMEvent.send "a", PMEvent.send "b", PMEvent.opened, PMEvent.send "c",
         PMEvent.closed, PMEvent.send "d", PMEvent.opened]).retryQueue = [] :=
  ⟨(claim_retry_queue_fifo
      [PMEvent.send "a", PMEvent.send "b", PMEvent.opened, PMEvent.send "c",
       PMEvent.closed, PMEvent.send "d", PMEvent.opened]).1,
   (claim_retry_queue_fifo
      [PMEvent.send "a", PMEvent.send "b", PMEvent.opened, PMEvent.send "c",
       PMEvent.closed, PMEvent.send "d", PMEvent.opened]).2.1 (by decide)⟩

end SilentByte
